import Mathlib

/-!
# Verification of the cursor-based pagination engine of `sahana-backend`

Shallow embedding of the cursor pagination code paths of the repository:

* `app/models/pagination.py` — `CursorInfo.encode` / `CursorInfo.decode`
  (base64 of a JSON object), `CursorPaginationParams`, `EventFilters`;
* `app/repositories/base_repository.py` — `_apply_cursor_filters`,
  `_apply_cursor_sorting`, `_apply_non_archived_filter`;
* `app/repositories/events/event_query_repository.py` —
  `get_all_events_paginated`, `_filter_events_by_cursor`
  (with its inner `compare_start_times`), and
  `_apply_event_filters_with_index_selection`.

Machine strings are Lean `String`s (Python `str` comparison is code-point
lexicographic, which coincides with Lean's `String` order); bytes are `Nat`s
below 256; fallible library calls are modelled with `Option`/`Except`.
-/

namespace Sahana

/-! ## UTF-8 (models Python `str.encode()` / `bytes.decode()`)

`json.dumps` output and base64 text are ASCII, so only the single-byte branch
is exercised by the proofs, but the full codec is modelled so that
`CursorInfo.decode` is defined on arbitrary input strings. -/

/-- UTF-8 encoding of one Unicode scalar value (1–4 bytes). -/
def utf8EncodeChar (c : Char) : List Nat :=
  let n := c.toNat
  if n < 0x80 then [n]
  else if n < 0x800 then [0xC0 + n / 0x40, 0x80 + n % 0x40]
  else if n < 0x10000 then
    [0xE0 + n / 0x1000, 0x80 + (n / 0x40) % 0x40, 0x80 + n % 0x40]
  else
    [0xF0 + n / 0x40000, 0x80 + (n / 0x1000) % 0x40,
     0x80 + (n / 0x40) % 0x40, 0x80 + n % 0x40]

/-- UTF-8 encoding of a character sequence; models Python `str.encode()`. -/
def utf8Encode : List Char → List Nat
  | [] => []
  | c :: cs => utf8EncodeChar c ++ utf8Encode cs

/-- Decode one UTF-8 sequence whose lead byte is `b` and whose remaining
input is `bs`: the scalar value and the unconsumed rest.  Truncated,
overlong, out-of-range and surrogate sequences are rejected, as CPython
does. -/
def utf8DecodeOne (b : Nat) (bs : List Nat) : Option (Nat × List Nat) :=
  if b < 0x80 then some (b, bs)
  else if b < 0xC2 then none
  else if b < 0xE0 then
    match bs with
    | b1 :: bs1 =>
      if 0x80 ≤ b1 ∧ b1 < 0xC0 then some ((b - 0xC0) * 0x40 + (b1 - 0x80), bs1)
      else none
    | [] => none
  else if b < 0xF0 then
    match bs with
    | b1 :: b2 :: bs2 =>
      if 0x80 ≤ b1 ∧ b1 < 0xC0 ∧ 0x80 ≤ b2 ∧ b2 < 0xC0 then
        let n := (b - 0xE0) * 0x1000 + (b1 - 0x80) * 0x40 + (b2 - 0x80)
        if n < 0x800 ∨ (0xD800 ≤ n ∧ n < 0xE000) then none
        else some (n, bs2)
      else none
    | _ => none
  else if b < 0xF5 then
    match bs with
    | b1 :: b2 :: b3 :: bs3 =>
      if 0x80 ≤ b1 ∧ b1 < 0xC0 ∧ 0x80 ≤ b2 ∧ b2 < 0xC0 ∧ 0x80 ≤ b3 ∧ b3 < 0xC0 then
        let n := (b - 0xF0) * 0x40000 + (b1 - 0x80) * 0x1000 +
                 (b2 - 0x80) * 0x40 + (b3 - 0x80)
        if n < 0x10000 ∨ 0x110000 ≤ n then none
        else some (n, bs3)
      else none
    | _ => none
  else none

/-- Decoding loop: repeatedly decode one sequence.  `fuel` only serves to
make the recursion structural; every call supplies at least the input
length, which always suffices because each sequence consumes at least one
byte. -/
def utf8DecodeFuel : Nat → List Nat → Option (List Char)
  | _, [] => some []
  | 0, _ :: _ => none
  | fuel + 1, b :: bs =>
    match utf8DecodeOne b bs with
    | some nr => (utf8DecodeFuel fuel nr.2).map (Char.ofNat nr.1 :: ·)
    | none => none

/-- UTF-8 decoding; models Python `bytes.decode()`, with `none` standing for
`UnicodeDecodeError`. -/
def utf8Decode (l : List Nat) : Option (List Char) :=
  utf8DecodeFuel l.length l

/-! ## Base64 (models Python `base64.b64encode` / `base64.b64decode`) -/

/-- Character of the standard base64 alphabet for a 6-bit value. -/
def b64Char (n : Nat) : Char :=
  if n < 26 then Char.ofNat (65 + n)
  else if n < 52 then Char.ofNat (97 + (n - 26))
  else if n < 62 then Char.ofNat (48 + (n - 52))
  else if n = 62 then '+' else '/'

/-- 6-bit value of a base64 alphabet byte, `none` for non-alphabet bytes. -/
def b64ByteVal (b : Nat) : Option Nat :=
  if 65 ≤ b ∧ b ≤ 90 then some (b - 65)
  else if 97 ≤ b ∧ b ≤ 122 then some (b - 97 + 26)
  else if 48 ≤ b ∧ b ≤ 57 then some (b - 48 + 52)
  else if b = 43 then some 62
  else if b = 47 then some 63
  else none

/-- Standard base64 encoding of a byte sequence; models `base64.b64encode`
(which emits `=`-padded 4-character groups). -/
def b64encodeBytes : List Nat → List Char
  | [] => []
  | [a] => [b64Char (a / 4), b64Char (a % 4 * 16), '=', '=']
  | [a, b] => [b64Char (a / 4), b64Char (a % 4 * 16 + b / 16),
               b64Char (b % 16 * 4), '=']
  | a :: b :: c :: rest =>
    b64Char (a / 4) :: b64Char (a % 4 * 16 + b / 16) ::
    b64Char (b % 16 * 4 + c / 64) :: b64Char (c % 64) :: b64encodeBytes rest

/-- Decode 4-byte base64 groups, with `=` padding allowed only in the final
group; `none` models `binascii.Error`. -/
def b64DecodeGroups : List Nat → Option (List Nat)
  | [] => some []
  | c0 :: c1 :: c2 :: c3 :: rest =>
    match b64ByteVal c0, b64ByteVal c1 with
    | some v0, some v1 =>
      if c2 = 61 then
        if c3 = 61 ∧ rest = [] then some [v0 * 4 + v1 / 16] else none
      else
        match b64ByteVal c2 with
        | some v2 =>
          if c3 = 61 then
            if rest = [] then some [v0 * 4 + v1 / 16, v1 % 16 * 16 + v2 / 4]
            else none
          else
            match b64ByteVal c3 with
            | some v3 =>
              (b64DecodeGroups rest).map
                (fun l => (v0 * 4 + v1 / 16) :: (v1 % 16 * 16 + v2 / 4) ::
                          (v2 % 4 * 64 + v3) :: l)
            | none => none
        | none => none
    | _, _ => none
  | _ => none

/-- Base64 decoding of a byte sequence; models `base64.b64decode` with its
default `validate=False`: bytes outside the alphabet and padding are
discarded before decoding, and a leftover partial group raises
(`none`). -/
def b64decodeBytes (bs : List Nat) : Option (List Nat) :=
  b64DecodeGroups (bs.filter (fun b => (b64ByteVal b).isSome || b = 61))

/-! ## JSON (models `json.dumps` / `json.loads` on the codec's payloads)

The cursor payload is a flat object whose values are `null` or strings, so
the JSON model covers exactly: `null`, strings (with the full
`ensure_ascii=True` escape set of `json.dumps`, including surrogate pairs),
and one-level objects.  Other JSON forms (numbers, arrays, booleans, nested
containers) are treated as parse errors; no claim exercises them. -/

inductive Json where
  | null : Json
  | str : List Char → Json
  | obj : List (List Char × Json) → Json

/-- Hex digit character (lowercase, as emitted by `json.dumps`). -/
def hexDigitChar (n : Nat) : Char :=
  if n < 10 then Char.ofNat (48 + n) else Char.ofNat (87 + n)

/-- Four-digit hex rendering of `n < 0x10000`, as in a `\uXXXX` escape. -/
def hex4 (n : Nat) : List Char :=
  [hexDigitChar (n / 4096), hexDigitChar (n / 256 % 16),
   hexDigitChar (n / 16 % 16), hexDigitChar (n % 16)]

/-- Value of a hex digit character, `none` for non-hex characters. -/
def hexDigitVal (c : Char) : Option Nat :=
  let n := c.toNat
  if 48 ≤ n ∧ n ≤ 57 then some (n - 48)
  else if 97 ≤ n ∧ n ≤ 102 then some (n - 97 + 10)
  else if 65 ≤ n ∧ n ≤ 70 then some (n - 65 + 10)
  else none

/-- `json.dumps` escaping of one character under `ensure_ascii=True`:
named escapes, literal printable ASCII, `\uXXXX` otherwise (with a
surrogate pair beyond the BMP). -/
def escapeChar (c : Char) : List Char :=
  let n := c.toNat
  if c = '"' then ['\\', '"']
  else if c = '\\' then ['\\', '\\']
  else if n = 8 then ['\\', 'b']
  else if n = 9 then ['\\', 't']
  else if n = 10 then ['\\', 'n']
  else if n = 12 then ['\\', 'f']
  else if n = 13 then ['\\', 'r']
  else if 0x20 ≤ n ∧ n ≤ 0x7E then [c]
  else if n < 0x10000 then '\\' :: 'u' :: hex4 n
  else
    ('\\' :: 'u' :: hex4 (0xD800 + (n - 0x10000) / 0x400)) ++
    ('\\' :: 'u' :: hex4 (0xDC00 + (n - 0x10000) % 0x400))

/-- Escaped body of a JSON string literal. -/
def escapeBody : List Char → List Char
  | [] => []
  | c :: cs => escapeChar c ++ escapeBody cs

/-- `json.dumps` of an optional string: `null` or a quoted escaped string. -/
def dumpOptStr : Option (List Char) → List Char
  | none => ['n', 'u', 'l', 'l']
  | some s => '"' :: (escapeBody s ++ ['"'])

/-- `json.dumps({"startTime": st, "eventId": eid})` with the default
separators `", "` and `": "`. -/
def cursorJson (st : Option (List Char)) (eid : List Char) : List Char :=
  '\x7b' :: ('"' :: ("startTime".data ++ ('"' :: ':' :: ' ' ::
    (dumpOptStr st ++ (',' :: ' ' :: '"' :: ("eventId".data ++ ('"' :: ':' :: ' ' ::
      ('"' :: (escapeBody eid ++ ['"', '\x7d'])))))))))

/-- Resolution of a single-character JSON escape (`\" \\ \/ \b \f \n \r \t`). -/
def escCharOf (e : Char) : Option Char :=
  if e = '"' then some '"'
  else if e = '\\' then some '\\'
  else if e = '/' then some '/'
  else if e = 'b' then some (Char.ofNat 8)
  else if e = 'f' then some (Char.ofNat 12)
  else if e = 'n' then some (Char.ofNat 10)
  else if e = 'r' then some (Char.ofNat 13)
  else if e = 't' then some (Char.ofNat 9)
  else none

/-- Continuation after a high-surrogate `\\uXXXX` escape with value `n`:
`json.loads` requires a following low-surrogate escape and combines the
pair into one character. -/
def parseLowSurrogate (n : Nat) : List Char → Option (Option Char × List Char)
  | e2 :: u2 :: g1 :: g2 :: g3 :: g4 :: cs3 =>
    if e2 = '\\' ∧ u2 = 'u' then
      match hexDigitVal g1, hexDigitVal g2, hexDigitVal g3, hexDigitVal g4 with
      | some a2, some b2, some c3, some d2 =>
        let m := a2 * 4096 + b2 * 256 + c3 * 16 + d2
        if 0xDC00 ≤ m ∧ m < 0xE000 then
          some (some (Char.ofNat (0x10000 + (n - 0xD800) * 0x400 + (m - 0xDC00))), cs3)
        else none
      | _, _, _, _ => none
    else none
  | _ => none

/-- One scanning step inside a JSON string literal: `some (none, rest)` when
the closing quote is consumed, `some (some c, rest)` when one character is
decoded (literal, named escape, `\uXXXX`, or a surrogate pair), `none` on
error.  Follows `json.loads` in strict mode: raw control characters are
rejected, and a high surrogate must be followed by a low surrogate (a lone
surrogate would fall outside the Unicode scalar range, hence an error
here). -/
def parseStringStep : List Char → Option (Option Char × List Char)
  | [] => none
  | c :: cs =>
    if c = '"' then some (none, cs)
    else if c = '\\' then
      match cs with
      | [] => none
      | e :: cs1 =>
        if e = 'u' then
          match cs1 with
          | h1 :: h2 :: h3 :: h4 :: cs2 =>
            match hexDigitVal h1, hexDigitVal h2, hexDigitVal h3, hexDigitVal h4 with
            | some a, some b, some c2, some d =>
              let n := a * 4096 + b * 256 + c2 * 16 + d
              if 0xD800 ≤ n ∧ n < 0xDC00 then parseLowSurrogate n cs2
              else if 0xDC00 ≤ n ∧ n < 0xE000 then none
              else some (some (Char.ofNat n), cs2)
            | _, _, _, _ => none
          | _ => none
        else
          match escCharOf e with
          | some d => some (some d, cs1)
          | none => none
    else if c.toNat < 0x20 then none
    else some (some c, cs)

/-- Scanning loop of a JSON string literal (the opening quote already
consumed); returns the decoded characters and the input after the closing
quote.  `fuel` only makes the recursion structural; each step consumes at
least one character, so the input length plus one always suffices. -/
def parseStringBodyFuel : Nat → List Char → Option (List Char × List Char)
  | 0, _ => none
  | fuel + 1, l =>
    match parseStringStep l with
    | some (none, rest) => some ([], rest)
    | some (some c, rest) =>
      (parseStringBodyFuel fuel rest).map (fun p => (c :: p.1, p.2))
    | none => none

/-- Parse the body of a JSON string literal, as `json.loads` does. -/
def parseStringBody (l : List Char) : Option (List Char × List Char) :=
  parseStringBodyFuel (l.length + 1) l

/-- Skip JSON whitespace. -/
def skipWs : List Char → List Char
  | [] => []
  | c :: cs => if c = ' ' ∨ c = '\t' ∨ c = '\n' ∨ c = '\r' then skipWs cs else c :: cs

/-- Parse a scalar JSON value (`null` or a string). -/
def parseScalar : List Char → Option (Json × List Char)
  | 'n' :: 'u' :: 'l' :: 'l' :: cs => some (.null, cs)
  | '"' :: cs => (parseStringBody cs).map (fun p => (.str p.1, p.2))
  | _ => none

/-- Parse one `"key": value` member of a JSON object (value restricted to
the scalar subset). -/
def parseMember (l : List Char) : Option ((List Char × Json) × List Char) :=
  match l with
  | c :: cs =>
    if c = '"' then
      match parseStringBody cs with
      | some (key, r1) =>
        match skipWs r1 with
        | c2 :: r2 =>
          if c2 = ':' then
            match parseScalar (skipWs r2) with
            | some (v, r3) => some ((key, v), r3)
            | none => none
          else none
        | [] => none
      | none => none
    else none
  | [] => none

/-- Parse the member list of a JSON object, positioned just after `\x7b`
(whitespace already skipped): `key: value` pairs separated by commas until
the closing `\x7d`.  `fuel` bounds the number of members and only makes the
recursion structural; the input length always suffices. -/
def parseMembers : Nat → List Char → Option (List (List Char × Json) × List Char)
  | 0, _ => none
  | fuel + 1, l =>
    match l with
    | c :: cs =>
      if c = '\x7d' then some ([], cs)
      else
        match parseMember (c :: cs) with
        | some (kv, r3) =>
          match skipWs r3 with
          | c2 :: r4 =>
            if c2 = ',' then
              match skipWs r4 with
              | c3 :: r5 =>
                if c3 = '"' then
                  (parseMembers fuel ('"' :: r5)).map (fun p => (kv :: p.1, p.2))
                else none
              | [] => none
            else if c2 = '\x7d' then some ([kv], r4)
            else none
          | [] => none
        | none => none
    | [] => none

/-- Parse one JSON document (value plus trailing whitespace); models
`json.loads` on the subset described above, with `none` for
`json.JSONDecodeError`. -/
def jsonLoads (s : List Char) : Option Json :=
  match skipWs s with
  | c :: cs =>
    if c = '\x7b' then
      match parseMembers (s.length + 1) (skipWs cs) with
      | some (members, rest) =>
        if skipWs rest = [] then some (.obj members) else none
      | none => none
    else
      match parseScalar (c :: cs) with
      | some (v, rest) => if skipWs rest = [] then some v else none
      | none => none
  | [] =>
    match parseScalar [] with
    | some (v, rest) => if skipWs rest = [] then some v else none
    | none => none

/-! ## `CursorInfo` (from `app/models/pagination.py`) -/

/-- Cursor position information: the `(sortKey, tieBreakId)` pair, with the
field names of the source model. -/
structure CursorInfo where
  start_time : Option String
  event_id : String
deriving DecidableEq

/-- Errors of the Python calls inside `CursorInfo.decode`'s `try` block. -/
inductive PyErr where
  | binascii : PyErr
  | unicode : PyErr
  | jsonDecode : PyErr
  | keyOrType : PyErr
  | validation : PyErr
deriving DecidableEq

/-- `data[k]` on a decoded JSON document: a `KeyError` on a missing key, a
`TypeError` when `data` is not an object.  Python dicts built from JSON keep
the last duplicate key, whence the reversed lookup. -/
def jGetKey (j : Json) (k : List Char) : Except PyErr Json :=
  match j with
  | .obj members =>
    match (members.reverse.find? (fun m => m.1 = k)) with
    | some m => .ok m.2
    | none => .error .keyOrType
  | _ => .error .keyOrType

/-- `CursorInfo.encode`: `base64.b64encode(json.dumps(cursor_dict).encode()).decode()`. -/
def CursorInfo.encode (c : CursorInfo) : String :=
  ⟨b64encodeBytes (utf8Encode (cursorJson (c.start_time.map String.data) c.event_id.data))⟩

/-- The body of `CursorInfo.decode`'s `try` block, with each fallible
library call modelled explicitly: `base64.b64decode(cursor.encode())`, then
`bytes.decode()`, then `json.loads`, then the `data["startTime"]` /
`data["eventId"]` accesses, then pydantic validation of the field types
(`Optional[str]` and `str`). -/
def decodeRaw (s : String) : Except PyErr CursorInfo :=
  match b64decodeBytes (utf8Encode s.data) with
  | none => .error .binascii
  | some bytes =>
    match utf8Decode bytes with
    | none => .error .unicode
    | some chars =>
      match jsonLoads chars with
      | none => .error .jsonDecode
      | some j => do
        let stJ ← jGetKey j "startTime".data
        let eidJ ← jGetKey j "eventId".data
        let st ← match stJ with
          | .null => Except.ok (none : Option String)
          | .str t => Except.ok (some (⟨t⟩ : String))
          | _ => Except.error PyErr.validation
        let eid ← match eidJ with
          | .str t => Except.ok (⟨t⟩ : String)
          | _ => Except.error PyErr.validation
        pure ⟨st, eid⟩

/-- `CursorInfo.decode`: the `try`/`except Exception: return None` wrapper
around `decodeRaw`. -/
def CursorInfo.decode (s : String) : Option CursorInfo :=
  (decodeRaw s).toOption

/-! ## Python string comparison

Python compares `str` values lexicographically by Unicode code point, which
is also Firestore's string order (UTF-8 byte order agrees with code-point
order).  Lean's builtin `String` order is the same relation, but its
`Decidable` instance does not reduce in the kernel, so the embedding uses
its own executable comparison. -/

/-- Code-point lexicographic strict order on character lists. -/
def strLtL : List Char → List Char → Bool
  | [], [] => false
  | [], _ :: _ => true
  | _ :: _, [] => false
  | a :: as, b :: bs =>
    if a.toNat < b.toNat then true
    else if b.toNat < a.toNat then false
    else strLtL as bs

/-- Python `a < b` on strings. -/
def strLt (a b : String) : Bool := strLtL a.data b.data

/-- Python `a <= b` on strings (total order: `a <= b` iff `¬ b < a`). -/
def strLe (a b : String) : Bool := !(strLt b a)

/-! ## Data model of the paginated event query

An event document as the repository reads it (`doc.to_dict()` plus
`event_data["eventId"] = doc.id`).  `startTime` is the nullable sort key
(`none` models a document whose `startTime` field holds JSON `null`; event
documents written by this app always carry the field, so `last_event["startTime"]`
never raises).  The remaining fields are the ones
`_apply_event_filters_with_index_selection` touches; `location.city` /
`location.state` are flattened, `none` standing for an absent field. -/

structure Event where
  eventId : String
  startTime : Option String
  isArchived : Bool
  city : Option String := none
  state : Option String := none
  isOnline : Option Bool := none
  createdByEmail : Option String := none
  categories : List String := []
deriving DecidableEq

/-- Pagination direction; `CursorPaginationParams.direction` is validated by
pydantic against the pattern `^(next|prev)$`, so only these two values reach
the repository. -/
inductive Dir where
  | next : Dir
  | prev : Dir
deriving DecidableEq

/-- `CursorPaginationParams` (defaults as in the pydantic model). -/
structure CursorPaginationParams where
  cursor : Option String := none
  page_size : Nat := 12
  direction : Dir := .next
deriving DecidableEq

/-- `EventFilters` (all fields optional). -/
structure EventFilters where
  city : Option String := none
  state : Option String := none
  category : Option String := none
  is_online : Option Bool := none
  creator_email : Option String := none
  start_date : Option String := none
  end_date : Option String := none
deriving DecidableEq

/-- The 5-tuple `get_all_events_paginated` returns:
`(events, next_cursor, prev_cursor, has_next, has_previous)`. -/
structure PageResult where
  items : List Event
  next_cursor : Option String
  prev_cursor : Option String
  has_next : Bool
  has_previous : Bool
deriving DecidableEq

/-- The `return [], None, None, False, False` of the `except` branch. -/
def emptyPage : PageResult := ⟨[], none, none, false, false⟩

/-- Python truthiness of an `Optional[str]` (`None` and `""` are falsy), as
used by `if cursor_params.cursor:` and the filter guards. -/
def strTruthy : Option String → Bool
  | none => false
  | some s => decide (s ≠ "")

/-! ## Store-level query model

A Firestore query is declarative: the `where` clauses select the matching
documents, `order_by` sorts them, and the last `limit` bounds the result
(the initial `limit(1000000)` is overwritten by the final
`limit(fetch_limit)`).  Firestore range operators on a field do not match
documents whose field is `null` — which is exactly what
`_apply_cursor_filters` relies on for its
`where("startTime", "<", "1900-01-01T00:00:00Z")` "impossible condition" —
and `order_by("startTime")` sorts `null` first. -/

/-- `where("startTime", ">=", v)` (null fields never match a range filter). -/
def whereGeStartTime (v : String) (e : Event) : Bool :=
  match e.startTime with
  | some s => strLe v s
  | none => false

/-- `where("startTime", "<=", v)`. -/
def whereLeStartTime (v : String) (e : Event) : Bool :=
  match e.startTime with
  | some s => strLe s v
  | none => false

/-- `where("startTime", "<", v)`. -/
def whereLtStartTime (v : String) (e : Event) : Bool :=
  match e.startTime with
  | some s => strLt s v
  | none => false

/-- `compare_start_times` (inner function of `_filter_events_by_cursor`):
`None` sorts first; two strings compare lexicographically; result in
`{-1, 0, 1}`. -/
def compare_start_times (event_time cursor_time : Option String) : Int :=
  match event_time, cursor_time with
  | none, none => 0
  | none, some _ => -1
  | some _, none => 1
  | some e, some c => if strLt e c then -1 else if strLt c e then 1 else 0

/-- The keep-condition of `_filter_events_by_cursor` for `direction="next"`:
strictly after the cursor position. -/
def nextKeep (ci : CursorInfo) (e : Event) : Bool :=
  let t := compare_start_times e.startTime ci.start_time
  decide (t > 0) || (decide (t = 0) && strLt ci.event_id e.eventId)

/-- The keep-condition of `_filter_events_by_cursor` for `direction="prev"`:
strictly before the cursor position. -/
def prevKeep (ci : CursorInfo) (e : Event) : Bool :=
  let t := compare_start_times e.startTime ci.start_time
  decide (t < 0) || (decide (t = 0) && strLt e.eventId ci.event_id)

/-- `_filter_events_by_cursor`: application-layer exact boundary filter. -/
def filter_events_by_cursor (events : List Event) (ci : CursorInfo) (dir : Dir) :
    List Event :=
  match dir with
  | .next => events.filter (nextKeep ci)
  | .prev => events.filter (prevKeep ci)

/-- `_apply_cursor_filters` (base repository), as the predicate the added
`where` clauses impose on a document. -/
def applyCursorFilters (ci : Option CursorInfo) (dir : Dir) (e : Event) : Bool :=
  match ci with
  | none => true
  | some c =>
    match dir with
    | .next =>
      match c.start_time with
      | none => true
      | some t => whereGeStartTime t e
    | .prev =>
      match c.start_time with
      | none => whereLtStartTime "1900-01-01T00:00:00Z" e
      | some t => whereLeStartTime t e

/-- `_apply_non_archived_filter`: `where("isArchived", "==", False)`. -/
def nonArchived (e : Event) : Bool :=
  decide (e.isArchived = false)

/-- `_apply_event_filters_with_index_selection`, as the predicate the added
`where` clauses impose on a document (the `if`/`elif` guards use Python
truthiness of the optional strings). -/
def applyEventFilters (filters : Option EventFilters) (e : Event) : Bool :=
  match filters with
  | none => true
  | some f =>
    (if strTruthy f.city && strTruthy f.state then
        decide (e.city = f.city) && decide (e.state = f.state)
      else if strTruthy f.state then decide (e.state = f.state)
      else if strTruthy f.city then decide (e.city = f.city)
      else true)
    && (match f.is_online with
        | some b => decide (e.isOnline = some b)
        | none => true)
    && (if strTruthy f.creator_email then decide (e.createdByEmail = f.creator_email)
        else true)
    && (if strTruthy f.category then
          match f.category with
          | some cat => e.categories.contains cat
          | none => true
        else true)
    && (if strTruthy f.start_date then
          match f.start_date with
          | some d => whereGeStartTime d e
          | none => true
        else true)
    && (if strTruthy f.end_date then
          match f.end_date with
          | some d => whereLeStartTime d e
          | none => true
        else true)

/-- The total sort order of `_apply_cursor_sorting`
(`order_by("startTime", ASC).order_by("__name__", ASC)`, nulls first),
expressed through `compare_start_times`, whose order agrees with
Firestore's. -/
def cursorLe (a b : Event) : Bool :=
  decide (compare_start_times a.startTime b.startTime < 0) ||
  (decide (compare_start_times a.startTime b.startTime = 0) &&
   strLe a.eventId b.eventId)

/-- Insert into a sorted list (auxiliary to `sortBy`). -/
def insertSorted (le : α → α → Bool) (a : α) : List α → List α
  | [] => [a]
  | b :: bs => if le a b then a :: b :: bs else b :: insertSorted le a bs

/-- Stable sort by a Boolean total preorder; models the ordered result set
the store returns for an `order_by` query. -/
def sortBy (le : α → α → Bool) : List α → List α
  | [] => []
  | a :: as => insertSorted le a (sortBy le as)

/-- Conjunction of all `where` clauses the paginated query registers. -/
def scanPred (ci : Option CursorInfo) (dir : Dir) (filters : Option EventFilters)
    (e : Event) : Bool :=
  nonArchived e && (applyCursorFilters ci dir e && applyEventFilters filters e)

/-- The store scan `query.get()`: matching documents, sorted, first `lim`. -/
def scanEvents (coll : List Event) (ci : Option CursorInfo) (dir : Dir)
    (filters : Option EventFilters) (lim : Nat) : List Event :=
  ((sortBy cursorLe (coll.filter (scanPred ci dir filters))).take lim)

/-- The fetch limit: `page_size * 3` capped at 100 with a cursor, else
`page_size + 1`. -/
def fetchLimit (ci : Option CursorInfo) (psize : Nat) : Nat :=
  match ci with
  | some _ => min (psize * 3) 100
  | none => psize + 1

/-- The document loop after `query.get()`: keep `to_dict()`s that are truthy
and not archived (re-checking `isArchived` in the application layer). -/
def fetchedEvents (coll : List Event) (ci : Option CursorInfo) (dir : Dir)
    (filters : Option EventFilters) (psize : Nat) : List Event :=
  (scanEvents coll ci dir filters (fetchLimit ci psize)).filter (fun e => !e.isArchived)

/-- The candidates after the application-layer cursor correction
(`_filter_events_by_cursor` is applied only when a cursor was decoded). -/
def correctedEvents (coll : List Event) (ci : Option CursorInfo) (dir : Dir)
    (filters : Option EventFilters) (psize : Nat) : List Event :=
  match ci with
  | some c => filter_events_by_cursor (fetchedEvents coll ci dir filters psize) c dir
  | none => fetchedEvents coll ci dir filters psize

/-- The pipeline of `get_all_events_paginated` after cursor decoding:
fetch, correct, trim (`events[:page_size]` forward /
`events[-page_size:]` backward), derive flags, and issue cursors from the
first/last emitted item.  `scanRaises` models `query.get()` raising (e.g. a
missing composite index); the surrounding `except Exception` turns any such
failure into `emptyPage`. -/
def paginateCore (coll : List Event) (scanRaises : Bool) (ci : Option CursorInfo)
    (params : CursorPaginationParams) (filters : Option EventFilters) : PageResult :=
  if scanRaises then emptyPage
  else
    let events1 := correctedEvents coll ci params.direction filters params.page_size
    let hasMore : Bool := decide (events1.length > params.page_size)
    let events2 :=
      match params.direction with
      | .prev =>
        if events1.length > params.page_size then
          events1.drop (events1.length - params.page_size)
        else events1
      | .next => if hasMore then events1.take params.page_size else events1
    let flags : Bool × Bool :=
      match params.direction with
      | .next => (hasMore, params.cursor.isSome)
      | .prev => (params.cursor.isSome, hasMore)
    let next_cursor : Option String :=
      match events2.getLast? with
      | some lastEvent =>
        if flags.1 then some (CursorInfo.encode ⟨lastEvent.startTime, lastEvent.eventId⟩)
        else none
      | none => none
    let prev_cursor : Option String :=
      match events2.head? with
      | some firstEvent =>
        if flags.2 then some (CursorInfo.encode ⟨firstEvent.startTime, firstEvent.eventId⟩)
        else none
      | none => none
    ⟨events2, next_cursor, prev_cursor, flags.1, flags.2⟩

/-- `get_all_events_paginated`.  `if cursor_params.cursor:` uses Python
truthiness, so an empty-string token skips decoding entirely; a non-empty
token that fails to decode raises `ValueError("Invalid cursor format")`,
which the blanket `except Exception` turns into the empty tuple. -/
def get_all_events_paginated (coll : List Event) (scanRaises : Bool)
    (params : CursorPaginationParams) (filters : Option EventFilters) : PageResult :=
  match params.cursor with
  | some tok =>
    if tok = "" then paginateCore coll scanRaises none params filters
    else
      match CursorInfo.decode tok with
      | none => emptyPage
      | some ci => paginateCore coll scanRaises (some ci) params filters
  | none => paginateCore coll scanRaises none params filters

/-- The filter set a document must satisfy to belong to the fully filtered
collection (no cursor constraint): not archived plus the request filters. -/
def matchingPred (filters : Option EventFilters) (e : Event) : Bool :=
  nonArchived e && applyEventFilters filters e

/-- The full filtered collection in display order: what a complete traversal
is measured against. -/
def sortedMatching (coll : List Event) (filters : Option EventFilters) : List Event :=
  sortBy cursorLe (coll.filter (matchingPred filters))

/-- Forward traversal: start with no cursor, then follow each returned
`next_cursor` while `has_next` is true, concatenating the pages' items.
`fuel` bounds the number of page requests. -/
def nextChain (coll : List Event) (filters : Option EventFilters) (p : Nat) :
    Nat → Option String → List Event
  | 0, _ => []
  | fuel + 1, tok =>
    let r := get_all_events_paginated coll false ⟨tok, p, .next⟩ filters
    if r.has_next then
      match r.next_cursor with
      | some t => r.items ++ nextChain coll filters p fuel (some t)
      | none => r.items
    else r.items

/-! ## Derived ordering vocabulary

The ordering comparator of the design (§4.2) over `(sortKey, tieBreakId)`
pairs, as induced by `compare_start_times` together with the `eventId`
tie-break used in `_filter_events_by_cursor`. -/

/-- The comparator over `(sortKey, tieBreakId)` pairs: `-1`/`0`/`1` for
less/equal/greater; sort key first (absent lowest), then lexicographic
tie-break id. -/
def cursorCompare (a b : Option String × String) : Int :=
  let t := compare_start_times a.1 b.1
  if t = 0 then (if strLt a.2 b.2 then -1 else if strLt b.2 a.2 then 1 else 0)
  else t

/-- The `(sortKey, tieBreakId)` key of an event. -/
def evKey (e : Event) : Option String × String :=
  (e.startTime, e.eventId)

/-- The key a decoded cursor denotes. -/
def ciKey (c : CursorInfo) : Option String × String :=
  (c.start_time, c.event_id)

/-- Strictly-before, as a proposition on keys (the relation the boundary
filter enforces relative to the cursor). -/
def keyLt (a b : Option String × String) : Prop :=
  compare_start_times a.1 b.1 = -1 ∨
  (compare_start_times a.1 b.1 = 0 ∧ strLt a.2 b.2 = true)

/-- Reflexive closure of `keyLt`. -/
def keyLe (a b : Option String × String) : Prop :=
  keyLt a b ∨ a = b

/-- Strictly-before on events. -/
def evLt (a b : Event) : Prop :=
  keyLt (evKey a) (evKey b)

/-- The cursor `get_all_events_paginated` effectively paginates from on a
request that reaches the query: `None` for an absent or empty token, the
decoded cursor otherwise (a non-empty token that fails to decode aborts the
request instead). -/
def effCursor (cur : Option String) : Option CursorInfo :=
  match cur with
  | some tok => if tok = "" then none else CursorInfo.decode tok
  | none => none

/-! ## Concrete instances

The three documents of the spec's concrete scenario (§8), a fourth document
for traversal counterexamples, and their cursor tokens. -/

/-- `(sortKey, tieBreakId) = (null, "a")`. -/
def evA : Event := ⟨"a", none, false, none, none, none, none, []⟩

/-- `(sortKey, tieBreakId) = ("2025-01-01", "b")`. -/
def evB : Event := ⟨"b", some "2025-01-01", false, none, none, none, none, []⟩

/-- `(sortKey, tieBreakId) = ("2025-01-01", "c")`. -/
def evC : Event := ⟨"c", some "2025-01-01", false, none, none, none, none, []⟩

/-- The spec's concrete collection (stored in arbitrary order). -/
def coll3 : List Event := [evB, evC, evA]

/-- The token of position `("2025-01-01", "b")`. -/
def tokB : String := CursorInfo.encode ⟨some "2025-01-01", "b"⟩

/-- `("2025-01-01", "a")`: like `evA` but with the shared sort key. -/
def evA1 : Event := ⟨"a", some "2025-01-01", false, none, none, none, none, []⟩

/-- `("2025-01-01", "d")`. -/
def evD : Event := ⟨"d", some "2025-01-01", false, none, none, none, none, []⟩

/-- Four documents sharing one sort key: repeated sort keys are where the
store-level range condition is weakest. -/
def coll4 : List Event := [evA1, evB, evC, evD]

/-- A token whose decoded cursor has a `null` sort key. -/
def tokNullZ : String := CursorInfo.encode ⟨none, "z"⟩

/-! ## Order lemmas for the string comparison -/

theorem char_eq_of_toNat_eq {a b : Char} (h : a.toNat = b.toNat) : a = b := by
  unfold Char.toNat at h
  exact Char.eq_of_val_eq (UInt32.toNat.inj h)

theorem strLtL_irrefl (l : List Char) : strLtL l l = false := by
  induction l with
  | nil => rfl
  | cons a as ih => simp [strLtL, ih]

theorem strLtL_asymm : ∀ {a b : List Char}, strLtL a b = true → strLtL b a = false
  | [], [], h => by simp [strLtL] at h
  | [], _ :: _, _ => rfl
  | _ :: _, [], h => by simp [strLtL] at h
  | a :: as, b :: bs, h => by
    simp only [strLtL] at h ⊢
    by_cases h1 : a.toNat < b.toNat
    · have h2 : ¬ b.toNat < a.toNat := by omega
      simp [h1, h2]
    · by_cases h2 : b.toNat < a.toNat
      · simp [h1, h2] at h
      · simpa [h1, h2] using strLtL_asymm (by simpa [h1, h2] using h)

theorem strLtL_trans : ∀ {a b c : List Char},
    strLtL a b = true → strLtL b c = true → strLtL a c = true
  | [], [], _, h, _ => by simp [strLtL] at h
  | [], _ :: _, [], _, h => by simp [strLtL] at h
  | [], _ :: _, _ :: _, _, _ => rfl
  | _ :: _, [], _, h, _ => by simp [strLtL] at h
  | _ :: _, _ :: _, [], _, h => by simp [strLtL] at h
  | a :: as, b :: bs, c :: cs, h1, h2 => by
    simp only [strLtL] at h1 h2 ⊢
    by_cases hab : a.toNat < b.toNat <;> by_cases hbc : b.toNat < c.toNat
    · simp [show a.toNat < c.toNat by omega]
    · by_cases hcb : c.toNat < b.toNat
      · simp [hbc, hcb] at h2
      · simp [show a.toNat < c.toNat by omega]
    · by_cases hba : b.toNat < a.toNat
      · simp [hab, hba] at h1
      · simp [show a.toNat < c.toNat by omega]
    · by_cases hba : b.toNat < a.toNat
      · simp [hab, hba] at h1
      · by_cases hcb : c.toNat < b.toNat
        · simp [hbc, hcb] at h2
        · have hac : ¬ a.toNat < c.toNat := by omega
          have hca : ¬ c.toNat < a.toNat := by omega
          rw [if_neg hac, if_neg hca]
          exact strLtL_trans (by simpa [hab, hba] using h1) (by simpa [hbc, hcb] using h2)

theorem strLtL_eq_of_not_lt : ∀ {a b : List Char},
    strLtL a b = false → strLtL b a = false → a = b
  | [], [], _, _ => rfl
  | [], _ :: _, h, _ => by simp [strLtL] at h
  | _ :: _, [], _, h => by simp [strLtL] at h
  | a :: as, b :: bs, h1, h2 => by
    simp only [strLtL] at h1 h2
    by_cases hab : a.toNat < b.toNat
    · simp [hab] at h1
    · by_cases hba : b.toNat < a.toNat
      · simp [hab, hba] at h1 h2
      · have hc : a = b := char_eq_of_toNat_eq (by omega)
        have ht : as = bs :=
          strLtL_eq_of_not_lt (by simpa [hab, hba] using h1) (by simpa [hab, hba] using h2)
        rw [hc, ht]

theorem strLt_irrefl (a : String) : strLt a a = false :=
  strLtL_irrefl a.data

theorem strLt_asymm {a b : String} (h : strLt a b = true) : strLt b a = false :=
  strLtL_asymm h

theorem strLt_trans {a b c : String} (h1 : strLt a b = true) (h2 : strLt b c = true) :
    strLt a c = true :=
  strLtL_trans h1 h2

theorem str_eq_of_not_lt {a b : String} (h1 : strLt a b = false)
    (h2 : strLt b a = false) : a = b := by
  cases a; cases b
  congr 1
  exact strLtL_eq_of_not_lt h1 h2

/-! ## Lemmas about `compare_start_times` -/

theorem cst_self (x : Option String) : compare_start_times x x = 0 := by
  cases x <;> simp [compare_start_times, strLt_irrefl]

theorem cst_cases (x y : Option String) :
    compare_start_times x y = -1 ∨ compare_start_times x y = 0 ∨
    compare_start_times x y = 1 := by
  cases x <;> cases y
  case none.none => simp [compare_start_times]
  case none.some => simp [compare_start_times]
  case some.none => simp [compare_start_times]
  case some.some s t =>
    simp only [compare_start_times]
    split_ifs <;> simp

theorem cst_eq_zero_iff {x y : Option String} :
    compare_start_times x y = 0 ↔ x = y := by
  cases x <;> cases y
  case none.none => simp [compare_start_times]
  case none.some t => exact iff_of_false (by simp [compare_start_times]) (by simp)
  case some.none s => exact iff_of_false (by simp [compare_start_times]) (by simp)
  case some.some s t =>
    simp only [compare_start_times, Option.some.injEq]
    constructor
    · intro h
      by_cases h1 : strLt s t = true
      · rw [if_pos h1] at h
        exact absurd h (by decide)
      · rw [if_neg h1] at h
        by_cases h2 : strLt t s = true
        · rw [if_pos h2] at h
          exact absurd h (by decide)
        · rw [if_neg h2] at h
          exact str_eq_of_not_lt (by simpa using h1) (by simpa using h2)
    · intro h
      subst h
      simp [strLt_irrefl]

theorem cst_neg_iff_pos {x y : Option String} :
    compare_start_times x y = -1 ↔ compare_start_times y x = 1 := by
  cases x <;> cases y
  case none.none => simp [compare_start_times]
  case none.some t => simp [compare_start_times]
  case some.none s => simp [compare_start_times]
  case some.some s t =>
    simp only [compare_start_times]
    by_cases h1 : strLt s t = true
    · have h2 : strLt t s = false := strLt_asymm h1
      rw [if_pos h1, if_neg (by simp [h2]), if_pos h1]
      simp
    · rw [if_neg h1]
      by_cases h2 : strLt t s = true
      · rw [if_pos h2, if_pos h2]
        simp
      · rw [if_neg h2, if_neg h2, if_neg h1]
        simp

theorem cst_trans_neg {x y z : Option String}
    (h1 : compare_start_times x y = -1) (h2 : compare_start_times y z = -1) :
    compare_start_times x z = -1 := by
  cases x <;> cases y <;> cases z
  case none.none.none => exact h2
  case none.none.some => rfl
  case none.some.none => exact absurd h2 (by simp [compare_start_times])
  case none.some.some => rfl
  case some.none.none => exact absurd h1 (by simp [compare_start_times])
  case some.none.some => exact absurd h1 (by simp [compare_start_times])
  case some.some.none => exact absurd h2 (by simp [compare_start_times])
  case some.some.some s t u =>
    simp only [compare_start_times] at h1 h2 ⊢
    have h1' : strLt s t = true := by
      by_contra hc
      rw [if_neg hc] at h1
      split_ifs at h1
    have h2' : strLt t u = true := by
      by_contra hc
      rw [if_neg hc] at h2
      split_ifs at h2
    rw [if_pos (strLt_trans h1' h2')]

/-! ## Lemmas about keys and the induced comparator -/

theorem keyLt_irrefl (a : Option String × String) : ¬ keyLt a a := by
  unfold keyLt
  rw [cst_self]
  simp [strLt_irrefl]

theorem keyLt_trans {a b c : Option String × String}
    (h1 : keyLt a b) (h2 : keyLt b c) : keyLt a c := by
  rcases h1 with h1 | ⟨h1e, h1s⟩ <;> rcases h2 with h2 | ⟨h2e, h2s⟩
  · exact Or.inl (cst_trans_neg h1 h2)
  · have e2 := cst_eq_zero_iff.mp h2e
    exact Or.inl (by rw [← e2]; exact h1)
  · have e1 := cst_eq_zero_iff.mp h1e
    exact Or.inl (by rw [e1]; exact h2)
  · have e1 := cst_eq_zero_iff.mp h1e
    have e2 := cst_eq_zero_iff.mp h2e
    refine Or.inr ⟨?_, strLt_trans h1s h2s⟩
    rw [e1, e2]
    exact cst_self c.1

theorem keyLt_asymm {a b : Option String × String} (h : keyLt a b) : ¬ keyLt b a :=
  fun h2 => keyLt_irrefl a (keyLt_trans h h2)

theorem keyLe_lt_trans {a b c : Option String × String}
    (h1 : keyLe a b) (h2 : keyLt b c) : keyLt a c := by
  rcases h1 with h1 | rfl
  · exact keyLt_trans h1 h2
  · exact h2

theorem keyLt_le_trans {a b c : Option String × String}
    (h1 : keyLt a b) (h2 : keyLe b c) : keyLt a c := by
  rcases h2 with h2 | rfl
  · exact keyLt_trans h1 h2
  · exact h1

theorem keyLe_trans {a b c : Option String × String}
    (h1 : keyLe a b) (h2 : keyLe b c) : keyLe a c := by
  rcases h2 with h2 | rfl
  · exact Or.inl (keyLe_lt_trans h1 h2)
  · exact h1

theorem keyLt_total_of_ne {a b : Option String × String} (h : a.2 ≠ b.2) :
    keyLt a b ∨ keyLt b a := by
  rcases cst_cases a.1 b.1 with hc | hc | hc
  · exact Or.inl (Or.inl hc)
  · by_cases hs : strLt a.2 b.2 = true
    · exact Or.inl (Or.inr ⟨hc, hs⟩)
    · have hs2 : strLt b.2 a.2 = true := by
        by_contra hs2
        exact h (str_eq_of_not_lt (by simpa using hs) (by simpa using hs2))
      refine Or.inr (Or.inr ⟨?_, hs2⟩)
      rw [cst_eq_zero_iff] at hc ⊢
      exact hc.symm
  · exact Or.inr (Or.inl (cst_neg_iff_pos.mpr hc))

theorem keyLe_total (a b : Option String × String) : keyLe a b ∨ keyLe b a := by
  by_cases h : a.2 = b.2
  · rcases cst_cases a.1 b.1 with hc | hc | hc
    · exact Or.inl (Or.inl (Or.inl hc))
    · have e := cst_eq_zero_iff.mp hc
      left; right
      have : a = b := Prod.ext e h
      exact this
    · exact Or.inr (Or.inl (Or.inl (cst_neg_iff_pos.mpr hc)))
  · rcases keyLt_total_of_ne h with h2 | h2
    · exact Or.inl (Or.inl h2)
    · exact Or.inr (Or.inl h2)

theorem keyLt_ne {a b : Option String × String} (h : keyLt a b) : a ≠ b := by
  intro he
  subst he
  exact keyLt_irrefl a h

/-! ## Bridges between the Boolean code predicates and the key order -/

theorem nextKeep_iff {ci : CursorInfo} {e : Event} :
    nextKeep ci e = true ↔ keyLt (ciKey ci) (evKey e) := by
  unfold nextKeep keyLt ciKey evKey
  simp only [Bool.or_eq_true, Bool.and_eq_true, decide_eq_true_eq]
  constructor
  · rintro (h | ⟨h0, hs⟩)
    · left
      rcases cst_cases e.startTime ci.start_time with hc | hc | hc
      · omega
      · omega
      · exact cst_neg_iff_pos.mpr hc
    · right
      refine ⟨?_, hs⟩
      rw [cst_eq_zero_iff] at h0 ⊢
      exact h0.symm
  · rintro (h | ⟨h0, hs⟩)
    · left
      have := cst_neg_iff_pos.mp h
      omega
    · right
      refine ⟨?_, hs⟩
      rw [cst_eq_zero_iff] at h0 ⊢
      exact h0.symm

theorem prevKeep_iff {ci : CursorInfo} {e : Event} :
    prevKeep ci e = true ↔ keyLt (evKey e) (ciKey ci) := by
  unfold prevKeep keyLt ciKey evKey
  simp only [Bool.or_eq_true, Bool.and_eq_true, decide_eq_true_eq]
  constructor
  · rintro (h | ⟨h0, hs⟩)
    · left
      rcases cst_cases e.startTime ci.start_time with hc | hc | hc
      · exact hc
      · omega
      · omega
    · exact Or.inr ⟨h0, hs⟩
  · rintro (h | ⟨h0, hs⟩)
    · left
      omega
    · exact Or.inr ⟨h0, hs⟩

theorem cursorLe_iff {a b : Event} :
    cursorLe a b = true ↔ keyLe (evKey a) (evKey b) := by
  unfold cursorLe keyLe keyLt evKey strLe
  simp only [Bool.or_eq_true, Bool.and_eq_true, decide_eq_true_eq,
    Bool.not_eq_true']
  constructor
  · rintro (h | ⟨h0, hs⟩)
    · left; left
      rcases cst_cases a.startTime b.startTime with hc | hc | hc
      · exact hc
      · omega
      · omega
    · by_cases hlt : strLt a.eventId b.eventId = true
      · exact Or.inl (Or.inr ⟨h0, hlt⟩)
      · right
        have he : a.eventId = b.eventId :=
          str_eq_of_not_lt (by simpa using hlt) hs
        have hst : a.startTime = b.startTime := cst_eq_zero_iff.mp h0
        rw [hst, he]
  · rintro ((h | ⟨h0, hs⟩) | he)
    · left
      omega
    · exact Or.inr ⟨h0, strLt_asymm hs⟩
    · have h1 : a.startTime = b.startTime := congrArg Prod.fst he
      have h2 : a.eventId = b.eventId := congrArg Prod.snd he
      right
      refine ⟨by rw [h1]; exact cst_self _, by rw [h2]; exact strLt_irrefl _⟩

theorem cursorLe_trans (a b c : Event) (h1 : cursorLe a b = true)
    (h2 : cursorLe b c = true) : cursorLe a c = true :=
  cursorLe_iff.mpr (keyLe_trans (cursorLe_iff.mp h1) (cursorLe_iff.mp h2))

theorem cursorLe_total (a b : Event) : (cursorLe a b || cursorLe b a) = true := by
  rcases keyLe_total (evKey a) (evKey b) with h | h
  · simp [cursorLe_iff.mpr h]
  · simp [cursorLe_iff.mpr h]

/-! ## ASCII, UTF-8 and base64 round-trip lemmas -/

theorem utf8EncodeChar_ascii {c : Char} (h : c.toNat < 128) :
    utf8EncodeChar c = [c.toNat] := by
  unfold utf8EncodeChar
  rw [if_pos h]

theorem utf8Encode_ascii {l : List Char} (h : ∀ c ∈ l, c.toNat < 128) :
    utf8Encode l = l.map Char.toNat := by
  induction l with
  | nil => rfl
  | cons c cs ih =>
    simp only [utf8Encode, List.map_cons]
    rw [utf8EncodeChar_ascii (h c (by simp)), ih (fun d hd => h d (by simp [hd]))]
    rfl

theorem utf8DecodeOne_ascii {b : Nat} (h : b < 128) (l : List Nat) :
    utf8DecodeOne b l = some (b, l) := by
  unfold utf8DecodeOne
  rw [if_pos h]

theorem utf8DecodeFuel_map_toNat : ∀ {l : List Char} {fuel : Nat},
    l.length ≤ fuel → (∀ c ∈ l, c.toNat < 128) →
    utf8DecodeFuel fuel (l.map Char.toNat) = some l
  | [], fuel, _, _ => by
    rw [List.map_nil]
    cases fuel <;> rfl
  | c :: cs, 0, hf, _ => by simp at hf
  | c :: cs, fuel + 1, hf, h => by
    have hc : c.toNat < 128 := h c (by simp)
    have hf' : cs.length ≤ fuel := by
      simp only [List.length_cons] at hf
      omega
    simp only [List.map_cons, utf8DecodeFuel, utf8DecodeOne_ascii hc]
    rw [utf8DecodeFuel_map_toNat hf' (fun d hd => h d (by simp [hd]))]
    simp [Char.ofNat_toNat]

theorem utf8Decode_map_toNat {l : List Char} (h : ∀ c ∈ l, c.toNat < 128) :
    utf8Decode (l.map Char.toNat) = some l := by
  unfold utf8Decode
  exact utf8DecodeFuel_map_toNat (by simp) h

theorem b64Char_val {n : Nat} (h : n < 64) :
    b64ByteVal ((b64Char n).toNat) = some n ∧ (b64Char n).toNat < 128 ∧
    (b64Char n).toNat ≠ 61 := by
  interval_cases n <;> exact ⟨by decide, by decide, by decide⟩

theorem b64encode_mem : ∀ {bs : List Nat}, (∀ x ∈ bs, x < 256) →
    ∀ {c : Char}, c ∈ b64encodeBytes bs →
    (∃ n, n < 64 ∧ c = b64Char n) ∨ c = '='
  | [], _, _, h => by simp [b64encodeBytes] at h
  | [a], hb, c, h => by
    have ha : a < 256 := hb a (by simp)
    simp only [b64encodeBytes, List.mem_cons, List.not_mem_nil, or_false] at h
    rcases h with h | h | h | h
    · exact Or.inl ⟨a / 4, by omega, h⟩
    · exact Or.inl ⟨a % 4 * 16, by omega, h⟩
    · exact Or.inr h
    · exact Or.inr h
  | [a, b], hb, c, h => by
    have ha : a < 256 := hb a (by simp)
    have hb' : b < 256 := hb b (by simp)
    simp only [b64encodeBytes, List.mem_cons, List.not_mem_nil, or_false] at h
    rcases h with h | h | h | h
    · exact Or.inl ⟨a / 4, by omega, h⟩
    · exact Or.inl ⟨a % 4 * 16 + b / 16, by omega, h⟩
    · exact Or.inl ⟨b % 16 * 4, by omega, h⟩
    · exact Or.inr h
  | a :: b :: d :: rest, hb, c, h => by
    have ha : a < 256 := hb a (by simp)
    have hb' : b < 256 := hb b (by simp)
    have hd : d < 256 := hb d (by simp)
    simp only [b64encodeBytes, List.mem_cons] at h
    rcases h with h | h | h | h | h
    · exact Or.inl ⟨a / 4, by omega, h⟩
    · exact Or.inl ⟨a % 4 * 16 + b / 16, by omega, h⟩
    · exact Or.inl ⟨b % 16 * 4 + d / 64, by omega, h⟩
    · exact Or.inl ⟨d % 64, by omega, h⟩
    · exact b64encode_mem (fun x hx => hb x (by simp [hx])) h

theorem b64encode_ascii {bs : List Nat} (hb : ∀ x ∈ bs, x < 256) {c : Char}
    (h : c ∈ b64encodeBytes bs) : c.toNat < 128 := by
  rcases b64encode_mem hb h with ⟨n, hn, rfl⟩ | rfl
  · exact (b64Char_val hn).2.1
  · decide

theorem b64DecodeGroups_encode : ∀ {bs : List Nat}, (∀ x ∈ bs, x < 256) →
    b64DecodeGroups ((b64encodeBytes bs).map Char.toNat) = some bs
  | [], _ => rfl
  | [a], h => by
    have ha : a < 256 := h a (by simp)
    obtain ⟨v0, -, -⟩ := b64Char_val (n := a / 4) (by omega)
    obtain ⟨v1, -, -⟩ := b64Char_val (n := a % 4 * 16) (by omega)
    simp only [b64encodeBytes, List.map_cons, List.map_nil, b64DecodeGroups, v0, v1,
      show ('=').toNat = 61 from rfl]
    simp only [and_self, if_true]
    congr 1
    have : a / 4 * 4 + a % 4 * 16 / 16 = a := by omega
    rw [this]
  | [a, b], h => by
    have ha : a < 256 := h a (by simp)
    have hb : b < 256 := h b (by simp)
    obtain ⟨v0, -, -⟩ := b64Char_val (n := a / 4) (by omega)
    obtain ⟨v1, -, -⟩ := b64Char_val (n := a % 4 * 16 + b / 16) (by omega)
    obtain ⟨v2, -, hne2⟩ := b64Char_val (n := b % 16 * 4) (by omega)
    simp only [b64encodeBytes, List.map_cons, List.map_nil, b64DecodeGroups, v0, v1, v2,
      show ('=').toNat = 61 from rfl]
    rw [if_neg hne2]
    simp only [if_true]
    congr 1
    have e1 : a / 4 * 4 + (a % 4 * 16 + b / 16) / 16 = a := by omega
    have e2 : (a % 4 * 16 + b / 16) % 16 * 16 + b % 16 * 4 / 4 = b := by omega
    rw [e1, e2]
  | a :: b :: d :: rest, h => by
    have ha : a < 256 := h a (by simp)
    have hb : b < 256 := h b (by simp)
    have hd : d < 256 := h d (by simp)
    obtain ⟨v0, -, -⟩ := b64Char_val (n := a / 4) (by omega)
    obtain ⟨v1, -, -⟩ := b64Char_val (n := a % 4 * 16 + b / 16) (by omega)
    obtain ⟨v2, -, hne2⟩ := b64Char_val (n := b % 16 * 4 + d / 64) (by omega)
    obtain ⟨v3, -, hne3⟩ := b64Char_val (n := d % 64) (by omega)
    have ih := @b64DecodeGroups_encode rest (fun x hx => h x (by simp [hx]))
    simp only [b64encodeBytes, List.map_cons, b64DecodeGroups, v0, v1, v2, v3]
    rw [if_neg hne2, if_neg hne3, ih]
    simp only [Option.map_some']
    congr 1
    have e1 : a / 4 * 4 + (a % 4 * 16 + b / 16) / 16 = a := by omega
    have e2 : (a % 4 * 16 + b / 16) % 16 * 16 + (b % 16 * 4 + d / 64) / 4 = b := by omega
    have e3 : (b % 16 * 4 + d / 64) % 4 * 64 + d % 64 = d := by omega
    rw [e1, e2, e3]

theorem b64_roundtrip {bs : List Nat} (h : ∀ x ∈ bs, x < 256) :
    b64decodeBytes (utf8Encode (b64encodeBytes bs)) = some bs := by
  rw [utf8Encode_ascii (fun c hc => b64encode_ascii h hc)]
  unfold b64decodeBytes
  rw [List.filter_eq_self.mpr]
  · exact b64DecodeGroups_encode h
  · intro x hx
    simp only [List.mem_map] at hx
    obtain ⟨c, hc, rfl⟩ := hx
    rcases b64encode_mem h hc with ⟨n, hn, rfl⟩ | rfl
    · simp [(b64Char_val hn).1]
    · simp

/-! ## JSON string escaping round-trip -/

theorem char_valid_range (c : Char) :
    c.toNat < 0xD800 ∨ (0xDFFF < c.toNat ∧ c.toNat < 0x110000) := by
  have h := c.valid
  unfold UInt32.isValidChar at h
  unfold Nat.isValidChar at h
  exact h

theorem hexDigitVal_hexDigitChar {d : Nat} (h : d < 16) :
    hexDigitVal (hexDigitChar d) = some d ∧ (hexDigitChar d).toNat < 128 := by
  interval_cases d <;> exact ⟨by decide, by decide⟩

theorem parseStringStep_quote (rest : List Char) :
    parseStringStep ('"' :: rest) = some (none, rest) := rfl

theorem parseStringStep_u {n : Nat} (hn : n < 0x10000)
    (hs : ¬(0xD800 ≤ n ∧ n < 0xE000)) (tail : List Char) :
    parseStringStep ('\\' :: 'u' :: (hex4 n ++ tail)) =
      some (some (Char.ofNat n), tail) := by
  obtain ⟨v1, -⟩ := hexDigitVal_hexDigitChar (d := n / 4096) (by omega)
  obtain ⟨v2, -⟩ := hexDigitVal_hexDigitChar (d := n / 256 % 16) (by omega)
  obtain ⟨v3, -⟩ := hexDigitVal_hexDigitChar (d := n / 16 % 16) (by omega)
  obtain ⟨v4, -⟩ := hexDigitVal_hexDigitChar (d := n % 16) (by omega)
  unfold parseStringStep
  simp only [hex4, List.cons_append, List.nil_append, reduceIte, v1, v2, v3, v4]
  have hrec : n / 4096 * 4096 + n / 256 % 16 * 256 + n / 16 % 16 * 16 + n % 16 = n := by
    omega
  rw [hrec]
  rw [if_neg (show ¬(0xD800 ≤ n ∧ n < 0xDC00) by omega)]
  rw [if_neg (show ¬(0xDC00 ≤ n ∧ n < 0xE000) by omega)]
  simp

theorem parseStringStep_u_high {n : Nat} (hn : n < 0x10000)
    (hs : 0xD800 ≤ n ∧ n < 0xDC00) (tail : List Char) :
    parseStringStep ('\\' :: 'u' :: (hex4 n ++ tail)) = parseLowSurrogate n tail := by
  obtain ⟨v1, -⟩ := hexDigitVal_hexDigitChar (d := n / 4096) (by omega)
  obtain ⟨v2, -⟩ := hexDigitVal_hexDigitChar (d := n / 256 % 16) (by omega)
  obtain ⟨v3, -⟩ := hexDigitVal_hexDigitChar (d := n / 16 % 16) (by omega)
  obtain ⟨v4, -⟩ := hexDigitVal_hexDigitChar (d := n % 16) (by omega)
  unfold parseStringStep
  simp only [hex4, List.cons_append, List.nil_append, reduceIte,
    show (('\\' : Char) = '"') = False by decide, if_false, v1, v2, v3, v4]
  have hrec : n / 4096 * 4096 + n / 256 % 16 * 256 + n / 16 % 16 * 16 + n % 16 = n := by
    omega
  rw [hrec, if_pos hs]

theorem parseLowSurrogate_spec {n lo : Nat} (hlo : 0xDC00 ≤ lo ∧ lo < 0xE000)
    (_hlo2 : lo < 0x10000) (tail : List Char) :
    parseLowSurrogate n ('\\' :: 'u' :: (hex4 lo ++ tail)) =
      some (some (Char.ofNat (0x10000 + (n - 0xD800) * 0x400 + (lo - 0xDC00))), tail) := by
  obtain ⟨w1, -⟩ := hexDigitVal_hexDigitChar (d := lo / 4096) (by omega)
  obtain ⟨w2, -⟩ := hexDigitVal_hexDigitChar (d := lo / 256 % 16) (by omega)
  obtain ⟨w3, -⟩ := hexDigitVal_hexDigitChar (d := lo / 16 % 16) (by omega)
  obtain ⟨w4, -⟩ := hexDigitVal_hexDigitChar (d := lo % 16) (by omega)
  unfold parseLowSurrogate
  simp only [hex4, List.cons_append, List.nil_append, and_self, if_true,
    show ((('\\' : Char) = '\\') ∧ (('u' : Char) = 'u')) = True by simp,
    w1, w2, w3, w4]
  have hrec : lo / 4096 * 4096 + lo / 256 % 16 * 256 + lo / 16 % 16 * 16 + lo % 16 = lo := by
    omega
  rw [hrec, if_pos hlo]

theorem parseStringStep_surrogate {n : Nat} (h1 : 0x10000 ≤ n) (h2 : n < 0x110000)
    (tail : List Char) :
    parseStringStep ('\\' :: 'u' :: (hex4 (0xD800 + (n - 0x10000) / 0x400) ++
      ('\\' :: 'u' :: (hex4 (0xDC00 + (n - 0x10000) % 0x400) ++ tail)))) =
      some (some (Char.ofNat n), tail) := by
  rw [parseStringStep_u_high (by omega) (by omega)]
  rw [parseLowSurrogate_spec (by omega) (by omega)]
  have hco : 0x10000 + (0xD800 + (n - 0x10000) / 0x400 - 0xD800) * 0x400 +
      (0xDC00 + (n - 0x10000) % 0x400 - 0xDC00) = n := by omega
  rw [hco]

theorem parseStringStep_escapeChar (c : Char) (tail : List Char) :
    parseStringStep (escapeChar c ++ tail) = some (some c, tail) := by
  have hval := char_valid_range c
  unfold escapeChar
  dsimp only
  split_ifs with h1 h2 h3 h4 h5 h6 h7 h8 h9
  · subst h1
    rfl
  · subst h2
    rfl
  · have : c = Char.ofNat 8 := by
      rw [← Char.ofNat_toNat c, h3]
    subst this
    rfl
  · have : c = Char.ofNat 9 := by
      rw [← Char.ofNat_toNat c, h4]
    subst this
    rfl
  · have : c = Char.ofNat 10 := by
      rw [← Char.ofNat_toNat c, h5]
    subst this
    rfl
  · have : c = Char.ofNat 12 := by
      rw [← Char.ofNat_toNat c, h6]
    subst this
    rfl
  · have : c = Char.ofNat 13 := by
      rw [← Char.ofNat_toNat c, h7]
    subst this
    rfl
  · show parseStringStep (c :: tail) = some (some c, tail)
    unfold parseStringStep
    dsimp only
    rw [if_neg h1, if_neg h2, if_neg (show ¬ c.toNat < 0x20 by omega)]
  · simp only [List.cons_append]
    rw [parseStringStep_u h9 (by omega)]
    rw [Char.ofNat_toNat]
  · simp only [List.append_assoc, List.cons_append]
    rw [parseStringStep_surrogate (by omega) (by omega)]
    rw [Char.ofNat_toNat]

theorem parseFuel_escapeBody : ∀ (s rest : List Char) {fuel : Nat},
    s.length + 1 ≤ fuel →
    parseStringBodyFuel fuel (escapeBody s ++ '"' :: rest) = some (s, rest)
  | s, _, 0, hf => by omega
  | [], rest, fuel + 1, _ => by
    simp only [escapeBody, List.nil_append, parseStringBodyFuel, parseStringStep_quote]
  | c :: cs, rest, fuel + 1, hf => by
    have hf' : cs.length + 1 ≤ fuel := by
      simp only [List.length_cons] at hf
      omega
    simp only [escapeBody, List.append_assoc, parseStringBodyFuel,
      parseStringStep_escapeChar]
    rw [parseFuel_escapeBody cs rest hf']
    rfl

theorem escapeChar_length_pos (c : Char) : 1 ≤ (escapeChar c).length := by
  unfold escapeChar
  dsimp only
  split_ifs <;> simp [hex4]

theorem escapeBody_length : ∀ s : List Char, s.length ≤ (escapeBody s).length
  | [] => le_refl _
  | c :: cs => by
    simp only [escapeBody, List.length_cons, List.length_append]
    have h1 := escapeChar_length_pos c
    have h2 := escapeBody_length cs
    omega

theorem parseStringBody_escape (s rest : List Char) :
    parseStringBody (escapeBody s ++ '"' :: rest) = some (s, rest) := by
  unfold parseStringBody
  apply parseFuel_escapeBody
  have h1 := escapeBody_length s
  simp only [List.length_append, List.length_cons]
  omega

/-! ## ASCII bounds for the dumped payload -/

theorem hex4_ascii {n : Nat} {d : Char} (hn : n < 0x10000) (h : d ∈ hex4 n) :
    d.toNat < 128 := by
  simp only [hex4, List.mem_cons, List.not_mem_nil, or_false] at h
  rcases h with rfl | rfl | rfl | rfl
  · exact (hexDigitVal_hexDigitChar (by omega)).2
  · exact (hexDigitVal_hexDigitChar (by omega)).2
  · exact (hexDigitVal_hexDigitChar (by omega)).2
  · exact (hexDigitVal_hexDigitChar (by omega)).2

theorem escapeChar_ascii {c d : Char} (h : d ∈ escapeChar c) : d.toNat < 128 := by
  have hval := char_valid_range c
  unfold escapeChar at h
  dsimp only at h
  split_ifs at h with h1 h2 h3 h4 h5 h6 h7 h8 h9
  · simp only [List.mem_cons, List.not_mem_nil, or_false] at h
    rcases h with rfl | rfl <;> decide
  · simp only [List.mem_cons, List.not_mem_nil, or_false] at h
    rcases h with rfl | rfl <;> decide
  · simp only [List.mem_cons, List.not_mem_nil, or_false] at h
    rcases h with rfl | rfl <;> decide
  · simp only [List.mem_cons, List.not_mem_nil, or_false] at h
    rcases h with rfl | rfl <;> decide
  · simp only [List.mem_cons, List.not_mem_nil, or_false] at h
    rcases h with rfl | rfl <;> decide
  · simp only [List.mem_cons, List.not_mem_nil, or_false] at h
    rcases h with rfl | rfl <;> decide
  · simp only [List.mem_cons, List.not_mem_nil, or_false] at h
    rcases h with rfl | rfl <;> decide
  · simp only [List.mem_singleton] at h
    subst h
    omega
  · rcases List.mem_cons.mp h with rfl | h
    · decide
    · rcases List.mem_cons.mp h with rfl | h
      · decide
      · exact hex4_ascii h9 h
  · rcases List.mem_append.mp h with h | h
    · rcases List.mem_cons.mp h with rfl | h
      · decide
      · rcases List.mem_cons.mp h with rfl | h
        · decide
        · exact hex4_ascii (by omega) h
    · rcases List.mem_cons.mp h with rfl | h
      · decide
      · rcases List.mem_cons.mp h with rfl | h
        · decide
        · exact hex4_ascii (by omega) h

theorem escapeBody_ascii : ∀ {s : List Char} {d : Char}, d ∈ escapeBody s →
    d.toNat < 128
  | [], _, h => by simp [escapeBody] at h
  | c :: cs, d, h => by
    simp only [escapeBody, List.mem_append] at h
    rcases h with h | h
    · exact escapeChar_ascii h
    · exact escapeBody_ascii h

theorem dumpOptStr_ascii {st : Option (List Char)} {d : Char}
    (h : d ∈ dumpOptStr st) : d.toNat < 128 := by
  cases st with
  | none =>
    simp only [dumpOptStr, List.mem_cons, List.not_mem_nil, or_false] at h
    rcases h with rfl | rfl | rfl | rfl <;> decide
  | some s =>
    simp only [dumpOptStr, List.mem_cons, List.mem_append,
      List.not_mem_nil, or_false] at h
    rcases h with rfl | h | rfl
    · decide
    · exact escapeBody_ascii h
    · decide

theorem cursorJson_ascii (st : Option (List Char)) (eid : List Char) :
    ∀ d ∈ cursorJson st eid, d.toNat < 128 := by
  simp only [cursorJson, List.forall_mem_cons, List.forall_mem_append]
  repeat' apply And.intro
  all_goals first
    | decide
    | exact fun d hd => dumpOptStr_ascii hd
    | exact fun d hd => escapeBody_ascii hd

/-! ## Parsing the dumped payload -/

theorem parseStringBody_key {k : List Char} (hk : escapeBody k = k)
    (tail : List Char) : parseStringBody (k ++ '"' :: tail) = some (k, tail) := by
  have h := parseStringBody_escape k tail
  rwa [hk] at h

theorem parseMember_str {k : List Char} (hk : escapeBody k = k)
    (s tail : List Char) :
    parseMember ('"' :: (k ++ '"' :: ':' :: ' ' :: ('"' :: (escapeBody s ++ '"' :: tail)))) =
      some ((k, .str s), tail) := by
  unfold parseMember
  simp only [parseStringBody_key hk, reduceIte, if_true]
  rw [show skipWs (':' :: ' ' :: ('"' :: (escapeBody s ++ '"' :: tail))) =
    ':' :: ' ' :: ('"' :: (escapeBody s ++ '"' :: tail)) from rfl]
  dsimp only
  simp only [reduceIte, if_true]
  rw [show skipWs (' ' :: ('"' :: (escapeBody s ++ '"' :: tail))) =
    '"' :: (escapeBody s ++ '"' :: tail) from rfl]
  rw [show parseScalar ('"' :: (escapeBody s ++ '"' :: tail)) =
    (parseStringBody (escapeBody s ++ '"' :: tail)).map
      (fun p => (Json.str p.1, p.2)) from rfl]
  rw [parseStringBody_escape]
  rfl

theorem parseMember_null {k : List Char} (hk : escapeBody k = k) (tail : List Char) :
    parseMember ('"' :: (k ++ '"' :: ':' :: ' ' :: ('n' :: 'u' :: 'l' :: 'l' :: tail))) =
      some ((k, .null), tail) := by
  unfold parseMember
  simp only [parseStringBody_key hk, reduceIte, if_true]
  rw [show skipWs (':' :: ' ' :: ('n' :: 'u' :: 'l' :: 'l' :: tail)) =
    ':' :: ' ' :: ('n' :: 'u' :: 'l' :: 'l' :: tail) from rfl]
  dsimp only
  simp only [reduceIte, if_true]
  rw [show skipWs (' ' :: ('n' :: 'u' :: 'l' :: 'l' :: tail)) =
    'n' :: 'u' :: 'l' :: 'l' :: tail from rfl]
  rw [show parseScalar ('n' :: 'u' :: 'l' :: 'l' :: tail) =
    some (Json.null, tail) from rfl]

theorem parseMembers_step {fuel : Nat} {cs r3 r4 rest : List Char}
    {kv : List Char × Json}
    (hm : parseMember ('"' :: cs) = some (kv, r3))
    (hr : skipWs r3 = ',' :: r4) (hr4 : skipWs r4 = '"' :: rest) :
    parseMembers (fuel + 1) ('"' :: cs) =
      (parseMembers fuel ('"' :: rest)).map (fun p => (kv :: p.1, p.2)) := by
  conv_lhs => rw [parseMembers]
  try dsimp only
  rw [if_neg (show ¬ ('"' : Char) = '\x7d' by decide), hm]
  try dsimp only
  rw [hr]
  try dsimp only
  rw [if_pos rfl, hr4]
  try dsimp only
  rw [if_pos rfl]

theorem parseMembers_last {fuel : Nat} {cs r3 r4 : List Char}
    {kv : List Char × Json}
    (hm : parseMember ('"' :: cs) = some (kv, r3))
    (hr : skipWs r3 = '\x7d' :: r4) :
    parseMembers (fuel + 1) ('"' :: cs) = some ([kv], r4) := by
  conv_lhs => rw [parseMembers]
  try dsimp only
  rw [if_neg (show ¬ ('"' : Char) = '\x7d' by decide), hm]
  try dsimp only
  rw [hr]
  try dsimp only
  rw [if_neg (show ¬ ('\x7d' : Char) = ',' by decide),
    if_pos (rfl : ('\x7d' : Char) = '\x7d')]

theorem dumpNull_append (x : List Char) :
    dumpOptStr none ++ x = 'n' :: 'u' :: 'l' :: 'l' :: x := rfl

theorem dumpStr_append (s x : List Char) :
    dumpOptStr (some s) ++ x = '"' :: (escapeBody s ++ '"' :: x) := by
  show ('"' :: (escapeBody s ++ ['"'])) ++ x = '"' :: (escapeBody s ++ '"' :: x)
  simp only [List.cons_append, List.append_assoc, List.singleton_append,
    List.nil_append]

theorem parseMembers_cursor (st : Option (List Char)) (eid : List Char) (fuel : Nat) :
    parseMembers (fuel + 1 + 1)
      ('"' :: ("startTime".data ++ '"' :: ':' :: ' ' ::
        (dumpOptStr st ++ ',' :: ' ' :: '"' :: ("eventId".data ++ '"' :: ':' :: ' ' ::
          ('"' :: (escapeBody eid ++ ['"', '\x7d'])))))) =
      some ([("startTime".data,
              match st with | none => Json.null | some s => Json.str s),
             ("eventId".data, Json.str eid)], []) := by
  have hk1 : escapeBody "startTime".data = "startTime".data := by decide
  have hk2 : escapeBody "eventId".data = "eventId".data := by decide
  have hlast : parseMembers (fuel + 1)
      ('"' :: ("eventId".data ++ '"' :: ':' :: ' ' ::
        ('"' :: (escapeBody eid ++ ['"', '\x7d'])))) =
      some ([("eventId".data, Json.str eid)], []) :=
    parseMembers_last (parseMember_str hk2 eid ['\x7d']) rfl
  cases st with
  | none =>
    rw [dumpNull_append]
    rw [parseMembers_step (parseMember_null hk1
      (',' :: ' ' :: '"' :: ("eventId".data ++ '"' :: ':' :: ' ' ::
        ('"' :: (escapeBody eid ++ ['"', '\x7d']))))) rfl rfl]
    rw [hlast]
    rfl
  | some s =>
    rw [dumpStr_append]
    rw [parseMembers_step (parseMember_str hk1 s
      (',' :: ' ' :: '"' :: ("eventId".data ++ '"' :: ':' :: ' ' ::
        ('"' :: (escapeBody eid ++ ['"', '\x7d']))))) rfl rfl]
    rw [hlast]
    rfl

theorem skipWs_quote_cons (x : List Char) : skipWs ('"' :: x) = '"' :: x := rfl

theorem jsonLoads_cursorJson (st : Option (List Char)) (eid : List Char) :
    jsonLoads (cursorJson st eid) =
      some (.obj [("startTime".data,
          match st with | none => Json.null | some s => Json.str s),
        ("eventId".data, Json.str eid)]) := by
  have h2 : 1 ≤ (cursorJson st eid).length := by
    rw [cursorJson]
    simp
  obtain ⟨m, hm⟩ : ∃ m, (cursorJson st eid).length + 1 = m + 1 + 1 :=
    ⟨(cursorJson st eid).length - 1, by omega⟩
  unfold jsonLoads
  rw [hm]
  rw [show skipWs (cursorJson st eid) = cursorJson st eid from rfl]
  conv_lhs => rw [cursorJson]
  try dsimp only
  rw [if_pos (rfl : ('\x7b' : Char) = '\x7b')]
  rw [skipWs_quote_cons]
  rw [parseMembers_cursor st eid m]
  try dsimp only
  rw [if_pos (by decide : skipWs ([] : List Char) = [])]

/-! ## The codec round trip -/

theorem decodeRaw_encode (c : CursorInfo) : decodeRaw (CursorInfo.encode c) = .ok c := by
  obtain ⟨st, eid⟩ := c
  cases st with
  | none =>
    unfold CursorInfo.encode decodeRaw
    have hascii := cursorJson_ascii ((none : Option String).map String.data) eid.data
    have hb : ∀ x ∈ utf8Encode (cursorJson ((none : Option String).map String.data) eid.data),
        x < 256 := by
      rw [utf8Encode_ascii hascii]
      intro x hx
      obtain ⟨d, hd, rfl⟩ := List.mem_map.mp hx
      have := hascii d hd
      omega
    rw [show (String.mk (b64encodeBytes (utf8Encode
      (cursorJson ((none : Option String).map String.data) eid.data)))).data =
      b64encodeBytes (utf8Encode
        (cursorJson ((none : Option String).map String.data) eid.data)) from rfl]
    rw [b64_roundtrip hb]
    try dsimp only
    rw [utf8Encode_ascii hascii]
    rw [utf8Decode_map_toNat hascii]
    try dsimp only
    rw [jsonLoads_cursorJson]
    rfl
  | some s =>
    unfold CursorInfo.encode decodeRaw
    have hascii := cursorJson_ascii ((some s).map String.data) eid.data
    have hb : ∀ x ∈ utf8Encode (cursorJson ((some s).map String.data) eid.data),
        x < 256 := by
      rw [utf8Encode_ascii hascii]
      intro x hx
      obtain ⟨d, hd, rfl⟩ := List.mem_map.mp hx
      have := hascii d hd
      omega
    rw [show (String.mk (b64encodeBytes (utf8Encode
      (cursorJson ((some s).map String.data) eid.data)))).data =
      b64encodeBytes (utf8Encode
        (cursorJson ((some s).map String.data) eid.data)) from rfl]
    rw [b64_roundtrip hb]
    try dsimp only
    rw [utf8Encode_ascii hascii]
    rw [utf8Decode_map_toNat hascii]
    try dsimp only
    rw [jsonLoads_cursorJson]
    rfl

theorem decode_encode (c : CursorInfo) :
    CursorInfo.decode (CursorInfo.encode c) = some c := by
  unfold CursorInfo.decode
  rw [decodeRaw_encode]
  rfl

theorem encode_ne_empty (c : CursorInfo) : CursorInfo.encode c ≠ "" := by
  intro h
  have hrt := decode_encode c
  rw [h] at hrt
  have h0 : CursorInfo.decode "" = none := by decide
  rw [h0] at hrt
  exact Option.noConfusion hrt

/-! ## Sorting lemmas -/

theorem insertSorted_perm (le : α → α → Bool) (a : α) :
    ∀ l : List α, (insertSorted le a l).Perm (a :: l)
  | [] => List.Perm.refl _
  | b :: bs => by
    unfold insertSorted
    by_cases h : le a b = true
    · rw [if_pos h]
    · rw [if_neg h]
      exact ((insertSorted_perm le a bs).cons b).trans (List.Perm.swap a b bs)

theorem sortBy_perm (le : α → α → Bool) : ∀ l : List α, (sortBy le l).Perm l
  | [] => List.Perm.refl _
  | a :: as =>
    (insertSorted_perm le a (sortBy le as)).trans ((sortBy_perm le as).cons a)

theorem mem_insertSorted {le : α → α → Bool} {a x : α} {l : List α}
    (h : x ∈ insertSorted le a l) : x = a ∨ x ∈ l := by
  have := (insertSorted_perm le a l).mem_iff.mp h
  simpa using this

theorem pairwise_insertSorted {le : α → α → Bool}
    (htot : ∀ x y, (le x y || le y x) = true)
    (htrans : ∀ x y z, le x y = true → le y z = true → le x z = true)
    (a : α) : ∀ {l : List α}, l.Pairwise (fun x y => le x y = true) →
    (insertSorted le a l).Pairwise (fun x y => le x y = true)
  | [], _ => by simp [insertSorted]
  | b :: bs, h => by
    rw [List.pairwise_cons] at h
    unfold insertSorted
    by_cases hab : le a b = true
    · rw [if_pos hab]
      rw [List.pairwise_cons]
      constructor
      · intro x hx
        rcases List.mem_cons.mp hx with rfl | hx
        · exact hab
        · exact htrans a b x hab (h.1 x hx)
      · exact List.pairwise_cons.mpr h
    · rw [if_neg hab]
      rw [List.pairwise_cons]
      constructor
      · intro x hx
        rcases mem_insertSorted hx with hxa | hx
        · have h2 := htot a b
          simp only [Bool.or_eq_true] at h2
          rcases h2 with h1 | h1
          · exact absurd h1 hab
          · rw [hxa]
            exact h1
        · exact h.1 x hx
      · exact pairwise_insertSorted htot htrans a h.2

theorem pairwise_sortBy {le : α → α → Bool}
    (htot : ∀ x y, (le x y || le y x) = true)
    (htrans : ∀ x y z, le x y = true → le y z = true → le x z = true) :
    ∀ l : List α, (sortBy le l).Pairwise (fun x y => le x y = true)
  | [] => List.Pairwise.nil
  | a :: as => pairwise_insertSorted htot htrans a (pairwise_sortBy htot htrans as)

/-! ## Structure of the scan and the corrected candidate list -/

theorem scan_pairwise_evLt {coll : List Event} {ci : Option CursorInfo} {dir : Dir}
    {filters : Option EventFilters} {lim : Nat}
    (hids : coll.Pairwise (fun a b => a.eventId ≠ b.eventId)) :
    (scanEvents coll ci dir filters lim).Pairwise evLt := by
  unfold scanEvents
  apply List.Pairwise.sublist (List.take_sublist _ _)
  have hperm := sortBy_perm cursorLe (coll.filter (scanPred ci dir filters))
  have hne : (sortBy cursorLe (coll.filter (scanPred ci dir filters))).Pairwise
      (fun a b => a.eventId ≠ b.eventId) := by
    rw [List.Perm.pairwise_iff (fun h => h.symm) hperm]
    exact List.Pairwise.sublist (List.filter_sublist _) hids
  have hle := pairwise_sortBy cursorLe_total cursorLe_trans
    (coll.filter (scanPred ci dir filters))
  refine (hle.and hne).imp ?_
  intro a b hab
  rcases cursorLe_iff.mp hab.1 with h | h
  · exact h
  · exact absurd (congrArg Prod.snd h) hab.2

theorem corrected_sublist {coll : List Event} {ci : Option CursorInfo} {dir : Dir}
    {filters : Option EventFilters} {p : Nat} :
    (correctedEvents coll ci dir filters p).Sublist
      (scanEvents coll ci dir filters (fetchLimit ci p)) := by
  unfold correctedEvents fetchedEvents
  cases ci with
  | none => exact List.filter_sublist _
  | some c =>
    unfold filter_events_by_cursor
    cases dir <;>
      exact ((List.filter_sublist _).trans (List.filter_sublist _))

theorem corrected_pairwise {coll : List Event} {ci : Option CursorInfo} {dir : Dir}
    {filters : Option EventFilters} {p : Nat}
    (hids : coll.Pairwise (fun a b => a.eventId ≠ b.eventId)) :
    (correctedEvents coll ci dir filters p).Pairwise evLt :=
  (scan_pairwise_evLt hids).sublist corrected_sublist

theorem scan_mem_matching {coll : List Event} {ci : Option CursorInfo} {dir : Dir}
    {filters : Option EventFilters} {lim : Nat} {e : Event}
    (h : e ∈ scanEvents coll ci dir filters lim) :
    e ∈ coll.filter (matchingPred filters) := by
  unfold scanEvents at h
  have h1 := (List.take_sublist _ _).mem h
  have h2 := (sortBy_perm cursorLe _).mem_iff.mp h1
  rw [List.mem_filter] at h2 ⊢
  refine ⟨h2.1, ?_⟩
  have := h2.2
  unfold scanPred at this
  unfold matchingPred
  simp only [Bool.and_eq_true] at this ⊢
  exact ⟨this.1, this.2.2⟩

theorem corrected_mem_matching {coll : List Event} {ci : Option CursorInfo}
    {dir : Dir} {filters : Option EventFilters} {p : Nat} {e : Event}
    (h : e ∈ correctedEvents coll ci dir filters p) :
    e ∈ coll.filter (matchingPred filters) :=
  scan_mem_matching (corrected_sublist.mem h)

theorem corrected_after_cursor {coll : List Event} {c : CursorInfo}
    {filters : Option EventFilters} {p : Nat} {e : Event}
    (h : e ∈ correctedEvents coll (some c) .next filters p) :
    keyLt (ciKey c) (evKey e) := by
  unfold correctedEvents filter_events_by_cursor at h
  exact nextKeep_iff.mp (List.of_mem_filter h)

/-! ## Unfolding lemmas for the pipeline -/

theorem paginateCore_raises {coll : List Event} {ci : Option CursorInfo}
    {params : CursorPaginationParams} {filters : Option EventFilters} :
    paginateCore coll true ci params filters = emptyPage := rfl

theorem core_next_items {coll : List Event} {ci : Option CursorInfo}
    {cur : Option String} {p : Nat} {filters : Option EventFilters} :
    (paginateCore coll false ci ⟨cur, p, .next⟩ filters).items =
      (if decide ((correctedEvents coll ci .next filters p).length > p)
       then (correctedEvents coll ci .next filters p).take p
       else correctedEvents coll ci .next filters p) := rfl

theorem core_next_has_next {coll : List Event} {ci : Option CursorInfo}
    {cur : Option String} {p : Nat} {filters : Option EventFilters} :
    (paginateCore coll false ci ⟨cur, p, .next⟩ filters).has_next =
      decide ((correctedEvents coll ci .next filters p).length > p) := rfl

theorem core_next_has_previous {coll : List Event} {ci : Option CursorInfo}
    {cur : Option String} {p : Nat} {filters : Option EventFilters} :
    (paginateCore coll false ci ⟨cur, p, .next⟩ filters).has_previous =
      cur.isSome := rfl

theorem core_next_cursor {coll : List Event} {ci : Option CursorInfo}
    {cur : Option String} {p : Nat} {filters : Option EventFilters} :
    (paginateCore coll false ci ⟨cur, p, .next⟩ filters).next_cursor =
      (match (paginateCore coll false ci ⟨cur, p, .next⟩ filters).items.getLast? with
       | some lastEvent =>
         if (paginateCore coll false ci ⟨cur, p, .next⟩ filters).has_next then
           some (CursorInfo.encode ⟨lastEvent.startTime, lastEvent.eventId⟩)
         else none
       | none => none) := rfl

theorem core_prev_items {coll : List Event} {ci : Option CursorInfo}
    {cur : Option String} {p : Nat} {filters : Option EventFilters} :
    (paginateCore coll false ci ⟨cur, p, .prev⟩ filters).items =
      (if (correctedEvents coll ci .prev filters p).length > p
       then (correctedEvents coll ci .prev filters p).drop
         ((correctedEvents coll ci .prev filters p).length - p)
       else correctedEvents coll ci .prev filters p) := rfl

theorem core_prev_has_next {coll : List Event} {ci : Option CursorInfo}
    {cur : Option String} {p : Nat} {filters : Option EventFilters} :
    (paginateCore coll false ci ⟨cur, p, .prev⟩ filters).has_next = cur.isSome := rfl

theorem core_prev_has_previous {coll : List Event} {ci : Option CursorInfo}
    {cur : Option String} {p : Nat} {filters : Option EventFilters} :
    (paginateCore coll false ci ⟨cur, p, .prev⟩ filters).has_previous =
      decide ((correctedEvents coll ci .prev filters p).length > p) := rfl

theorem core_prev_cursors_empty {coll : List Event} {ci : Option CursorInfo}
    {cur : Option String} {p : Nat} {filters : Option EventFilters}
    (h : (paginateCore coll false ci ⟨cur, p, .prev⟩ filters).items = []) :
    (paginateCore coll false ci ⟨cur, p, .prev⟩ filters).next_cursor = none ∧
    (paginateCore coll false ci ⟨cur, p, .prev⟩ filters).prev_cursor = none := by
  unfold paginateCore at h ⊢
  simp only [Bool.false_eq_true, if_false] at h ⊢
  constructor
  · rw [show (correctedEvents coll ci
      (CursorPaginationParams.mk cur p Dir.prev).direction filters
      (CursorPaginationParams.mk cur p Dir.prev).page_size) =
      correctedEvents coll ci .prev filters p from rfl] at h ⊢
    rw [h]
    rfl
  · rw [show (correctedEvents coll ci
      (CursorPaginationParams.mk cur p Dir.prev).direction filters
      (CursorPaginationParams.mk cur p Dir.prev).page_size) =
      correctedEvents coll ci .prev filters p from rfl] at h ⊢
    rw [h]
    rfl

/-! ## Dispatch lemmas for `get_all_events_paginated` -/

theorem gap_no_cursor {coll : List Event} {sr : Bool} {p : Nat} {d : Dir}
    {filters : Option EventFilters} :
    get_all_events_paginated coll sr ⟨none, p, d⟩ filters =
      paginateCore coll sr none ⟨none, p, d⟩ filters := rfl

theorem gap_cursor_decoded {coll : List Event} {sr : Bool} {p : Nat} {d : Dir}
    {filters : Option EventFilters} {tok : String} {ci : CursorInfo}
    (hne : tok ≠ "") (hdec : CursorInfo.decode tok = some ci) :
    get_all_events_paginated coll sr ⟨some tok, p, d⟩ filters =
      paginateCore coll sr (some ci) ⟨some tok, p, d⟩ filters := by
  unfold get_all_events_paginated
  dsimp only
  rw [if_neg hne, hdec]

theorem gap_cursor_bad {coll : List Event} {sr : Bool} {p : Nat} {d : Dir}
    {filters : Option EventFilters} {tok : String}
    (hne : tok ≠ "") (hdec : CursorInfo.decode tok = none) :
    get_all_events_paginated coll sr ⟨some tok, p, d⟩ filters = emptyPage := by
  unfold get_all_events_paginated
  dsimp only
  rw [if_neg hne, hdec]

/-! ## Per-page facts for forward pagination -/

theorem getLast?_mem {l : List α} {x : α} (h : l.getLast? = some x) : x ∈ l := by
  obtain ⟨ys, rfl⟩ := List.getLast?_eq_some_iff.mp h
  simp

theorem pairwise_getLast {R : α → α → Prop} :
    ∀ {l : List α}, l.Pairwise R → ∀ {x : α}, l.getLast? = some x →
      ∀ e ∈ l, e = x ∨ R e x
  | [], _, _, h, _, he => by simp at he
  | [a], _, x, h, e, he => by
    simp only [List.getLast?_singleton, Option.some.injEq] at h
    simp only [List.mem_singleton] at he
    exact Or.inl (he.trans h)
  | a :: b :: t, hp, x, h, e, he => by
    rw [List.getLast?_cons_cons] at h
    rcases List.mem_cons.mp he with rfl | he
    · right
      exact (List.pairwise_cons.mp hp).1 x (getLast?_mem (l := b :: t) h)
    · exact pairwise_getLast (List.pairwise_cons.mp hp).2 h e he

theorem core_next_items_sublist {coll : List Event} {ci : Option CursorInfo}
    {cur : Option String} {p : Nat} {filters : Option EventFilters} :
    (paginateCore coll false ci ⟨cur, p, .next⟩ filters).items.Sublist
      (correctedEvents coll ci .next filters p) := by
  rw [core_next_items]
  by_cases h : decide ((correctedEvents coll ci .next filters p).length > p) = true
  · rw [if_pos h]
    exact List.take_sublist _ _
  · rw [if_neg h]

theorem core_next_pairwise {coll : List Event} {ci : Option CursorInfo}
    {cur : Option String} {p : Nat} {filters : Option EventFilters}
    (hids : coll.Pairwise (fun a b => a.eventId ≠ b.eventId)) :
    (paginateCore coll false ci ⟨cur, p, .next⟩ filters).items.Pairwise evLt :=
  (corrected_pairwise hids).sublist core_next_items_sublist

theorem core_next_mem_matching {coll : List Event} {ci : Option CursorInfo}
    {cur : Option String} {p : Nat} {filters : Option EventFilters} {e : Event}
    (h : e ∈ (paginateCore coll false ci ⟨cur, p, .next⟩ filters).items) :
    e ∈ coll.filter (matchingPred filters) :=
  corrected_mem_matching (core_next_items_sublist.mem h)

theorem core_next_after_cursor {coll : List Event} {c : CursorInfo}
    {cur : Option String} {p : Nat} {filters : Option EventFilters} {e : Event}
    (h : e ∈ (paginateCore coll false (some c) ⟨cur, p, .next⟩ filters).items) :
    keyLt (ciKey c) (evKey e) :=
  corrected_after_cursor (core_next_items_sublist.mem h)

theorem core_next_last {coll : List Event} {ci : Option CursorInfo}
    {cur : Option String} {p : Nat} {filters : Option EventFilters}
    (hp : 1 ≤ p)
    (hn : (paginateCore coll false ci ⟨cur, p, .next⟩ filters).has_next = true) :
    ∃ lastE, (paginateCore coll false ci ⟨cur, p, .next⟩ filters).items.getLast? =
        some lastE ∧
      (paginateCore coll false ci ⟨cur, p, .next⟩ filters).next_cursor =
        some (CursorInfo.encode ⟨lastE.startTime, lastE.eventId⟩) := by
  have hlen : (correctedEvents coll ci .next filters p).length > p := by
    rw [core_next_has_next] at hn
    exact of_decide_eq_true hn
  have hitems : (paginateCore coll false ci ⟨cur, p, .next⟩ filters).items =
      (correctedEvents coll ci .next filters p).take p := by
    rw [core_next_items, if_pos (decide_eq_true hlen)]
  have hne : (paginateCore coll false ci ⟨cur, p, .next⟩ filters).items ≠ [] := by
    rw [hitems]
    intro hcon
    have := congrArg List.length hcon
    simp only [List.length_take, List.length_nil] at this
    omega
  obtain ⟨lastE, hlast⟩ := Option.isSome_iff_exists.mp
    (by rwa [List.getLast?_isSome])
  refine ⟨lastE, hlast, ?_⟩
  rw [core_next_cursor, hlast]
  simp only [hn, reduceIte]

/-! ## Forward-traversal chain lemmas -/

theorem nextChain_succ {coll : List Event} {filters : Option EventFilters}
    {p fuel : Nat} {tok : Option String} :
    nextChain coll filters p (fuel + 1) tok =
      (if (get_all_events_paginated coll false ⟨tok, p, .next⟩ filters).has_next then
        match (get_all_events_paginated coll false ⟨tok, p, .next⟩ filters).next_cursor with
        | some t => (get_all_events_paginated coll false ⟨tok, p, .next⟩ filters).items ++
            nextChain coll filters p fuel (some t)
        | none => (get_all_events_paginated coll false ⟨tok, p, .next⟩ filters).items
      else (get_all_events_paginated coll false ⟨tok, p, .next⟩ filters).items) := rfl

theorem nextChain_cursor_sound {coll : List Event} {filters : Option EventFilters}
    {p : Nat} (hids : coll.Pairwise (fun a b => a.eventId ≠ b.eventId)) :
    ∀ fuel (t : String) (c : CursorInfo), t ≠ "" → CursorInfo.decode t = some c →
      (nextChain coll filters p fuel (some t)).Pairwise evLt ∧
      (∀ e ∈ nextChain coll filters p fuel (some t), keyLt (ciKey c) (evKey e)) ∧
      (∀ e ∈ nextChain coll filters p fuel (some t),
        e ∈ coll.filter (matchingPred filters))
  | 0, t, c, _, _ => by
    refine ⟨List.Pairwise.nil, ?_, ?_⟩ <;> intro e he <;> simp [nextChain] at he
  | fuel + 1, t, c, hne, hdec => by
    rw [nextChain_succ, gap_cursor_decoded hne hdec]
    by_cases hn : (paginateCore coll false (some c)
        ⟨some t, p, .next⟩ filters).has_next = true
    · rw [if_pos hn]
      by_cases hp : 1 ≤ p
      · obtain ⟨lastE, hlast, hcur⟩ := core_next_last hp hn
        rw [hcur]
        have hbound := pairwise_getLast (core_next_pairwise hids) hlast
        have hle : ∀ e ∈ (paginateCore coll false (some c)
            ⟨some t, p, .next⟩ filters).items, keyLe (evKey e) (evKey lastE) := by
          intro e he
          rcases hbound e he with he' | he'
          · exact Or.inr (congrArg evKey he')
          · exact Or.inl he'
        have IH := @nextChain_cursor_sound coll filters p hids fuel
          (CursorInfo.encode ⟨lastE.startTime, lastE.eventId⟩)
          ⟨lastE.startTime, lastE.eventId⟩
          (encode_ne_empty _) (decode_encode _)
        have hlastkey : ciKey (⟨lastE.startTime, lastE.eventId⟩ : CursorInfo) =
            evKey lastE := rfl
        refine ⟨?_, ?_, ?_⟩
        · refine List.pairwise_append.mpr ⟨core_next_pairwise hids, IH.1, ?_⟩
          intro x hx y hy
          have hy' : keyLt (evKey lastE) (evKey y) := by
            have := IH.2.1 y hy
            rwa [hlastkey] at this
          exact keyLe_lt_trans (hle x hx) hy'
        · intro e he
          rcases List.mem_append.mp he with he | he
          · exact core_next_after_cursor he
          · have h1 : keyLt (ciKey c) (evKey lastE) :=
              core_next_after_cursor (getLast?_mem hlast)
            have h2 : keyLt (evKey lastE) (evKey e) := by
              have := IH.2.1 e he
              rwa [hlastkey] at this
            exact keyLt_trans h1 h2
        · intro e he
          rcases List.mem_append.mp he with he | he
          · exact core_next_mem_matching he
          · exact IH.2.2 e he
      · have hp0 : p = 0 := by omega
        subst hp0
        have hlen : (correctedEvents coll (some c) .next filters 0).length > 0 := by
          rw [core_next_has_next] at hn
          exact of_decide_eq_true hn
        have hitems : (paginateCore coll false (some c)
            ⟨some t, 0, .next⟩ filters).items = [] := by
          rw [core_next_items, if_pos (decide_eq_true hlen), List.take_zero]
        have hcur : (paginateCore coll false (some c)
            ⟨some t, 0, .next⟩ filters).next_cursor = none := by
          rw [core_next_cursor, hitems]
          rfl
        rw [hcur]
        dsimp only
        rw [hitems]
        refine ⟨List.Pairwise.nil, ?_, ?_⟩ <;> intro e he <;> simp at he
    · rw [if_neg hn]
      exact ⟨core_next_pairwise hids,
        fun e he => core_next_after_cursor he,
        fun e he => core_next_mem_matching he⟩

theorem nextChain_none_sound {coll : List Event} {filters : Option EventFilters}
    {p : Nat} (hids : coll.Pairwise (fun a b => a.eventId ≠ b.eventId))
    (fuel : Nat) :
    (nextChain coll filters p fuel none).Pairwise evLt ∧
    ∀ e ∈ nextChain coll filters p fuel none,
      e ∈ coll.filter (matchingPred filters) := by
  cases fuel with
  | zero =>
    refine ⟨List.Pairwise.nil, ?_⟩
    intro e he
    simp [nextChain] at he
  | succ fuel =>
    rw [nextChain_succ, gap_no_cursor]
    by_cases hn : (paginateCore coll false none
        ⟨none, p, .next⟩ filters).has_next = true
    · rw [if_pos hn]
      by_cases hp : 1 ≤ p
      · obtain ⟨lastE, hlast, hcur⟩ := core_next_last hp hn
        rw [hcur]
        have hbound := pairwise_getLast (core_next_pairwise hids) hlast
        have hle : ∀ e ∈ (paginateCore coll false none
            ⟨none, p, .next⟩ filters).items, keyLe (evKey e) (evKey lastE) := by
          intro e he
          rcases hbound e he with he' | he'
          · exact Or.inr (congrArg evKey he')
          · exact Or.inl he'
        have IH := @nextChain_cursor_sound coll filters p hids fuel
          (CursorInfo.encode ⟨lastE.startTime, lastE.eventId⟩)
          ⟨lastE.startTime, lastE.eventId⟩
          (encode_ne_empty _) (decode_encode _)
        have hlastkey : ciKey (⟨lastE.startTime, lastE.eventId⟩ : CursorInfo) =
            evKey lastE := rfl
        constructor
        · refine List.pairwise_append.mpr ⟨core_next_pairwise hids, IH.1, ?_⟩
          intro x hx y hy
          have hy' : keyLt (evKey lastE) (evKey y) := by
            have := IH.2.1 y hy
            rwa [hlastkey] at this
          exact keyLe_lt_trans (hle x hx) hy'
        · intro e he
          rcases List.mem_append.mp he with he | he
          · exact core_next_mem_matching he
          · exact IH.2.2 e he
      · have hp0 : p = 0 := by omega
        subst hp0
        have hlen : (correctedEvents coll none .next filters 0).length > 0 := by
          rw [core_next_has_next] at hn
          exact of_decide_eq_true hn
        have hitems : (paginateCore coll false none
            ⟨none, 0, .next⟩ filters).items = [] := by
          rw [core_next_items, if_pos (decide_eq_true hlen), List.take_zero]
        have hcur : (paginateCore coll false none
            ⟨none, 0, .next⟩ filters).next_cursor = none := by
          rw [core_next_cursor, hitems]
          rfl
        rw [hcur]
        dsimp only
        rw [hitems]
        refine ⟨List.Pairwise.nil, ?_⟩
        intro e he
        simp at he
    · rw [if_neg hn]
      exact ⟨core_next_pairwise hids, fun e he => core_next_mem_matching he⟩

theorem pairwise_evLt_nodup {l : List Event} (h : l.Pairwise evLt) : l.Nodup :=
  h.imp (fun hab heq => absurd (heq ▸ hab) (keyLt_irrefl _))

/-! ## The comparator's sign against the key order -/

theorem cursorCompare_neg_iff {a b : Option String × String} :
    cursorCompare a b = -1 ↔ keyLt a b := by
  unfold cursorCompare keyLt
  dsimp only
  by_cases h0 : compare_start_times a.1 b.1 = 0
  · rw [if_pos h0]
    by_cases hs : strLt a.2 b.2 = true
    · rw [if_pos hs]
      exact ⟨fun _ => Or.inr ⟨h0, hs⟩, fun _ => rfl⟩
    · rw [if_neg hs]
      by_cases hs2 : strLt b.2 a.2 = true
      · rw [if_pos hs2]
        constructor
        · intro h
          exact absurd h (by decide)
        · rintro (h | ⟨_, h⟩)
          · rw [h0] at h
            exact absurd h (by decide)
          · exact absurd h hs
      · rw [if_neg hs2]
        constructor
        · intro h
          exact absurd h (by decide)
        · rintro (h | ⟨_, h⟩)
          · rw [h0] at h
            exact absurd h (by decide)
          · exact absurd h hs
  · rw [if_neg h0]
    constructor
    · intro h
      exact Or.inl h
    · rintro (h | ⟨h, _⟩)
      · exact h
      · exact absurd h h0

theorem cursorCompare_pos_iff {a b : Option String × String} :
    cursorCompare a b = 1 ↔ keyLt b a := by
  unfold cursorCompare keyLt
  dsimp only
  by_cases h0 : compare_start_times a.1 b.1 = 0
  · have h0' : compare_start_times b.1 a.1 = 0 :=
      cst_eq_zero_iff.mpr (cst_eq_zero_iff.mp h0).symm
    rw [if_pos h0]
    by_cases hs : strLt a.2 b.2 = true
    · rw [if_pos hs]
      have hs' := strLt_asymm hs
      constructor
      · intro h
        exact absurd h (by decide)
      · rintro (h | ⟨_, h⟩)
        · rw [h0'] at h
          exact absurd h (by decide)
        · rw [hs'] at h
          exact absurd h (by decide)
    · rw [if_neg hs]
      by_cases hs2 : strLt b.2 a.2 = true
      · rw [if_pos hs2]
        exact ⟨fun _ => Or.inr ⟨h0', hs2⟩, fun _ => rfl⟩
      · rw [if_neg hs2]
        constructor
        · intro h
          exact absurd h (by decide)
        · rintro (h | ⟨_, h⟩)
          · rw [h0'] at h
            exact absurd h (by decide)
          · exact absurd h hs2
  · rw [if_neg h0]
    constructor
    · intro h
      exact Or.inl (cst_neg_iff_pos.mpr h)
    · rintro (h | ⟨h, _⟩)
      · exact cst_neg_iff_pos.mp h
      · exact absurd (cst_eq_zero_iff.mpr (cst_eq_zero_iff.mp h).symm) h0

/-! ## The no-cursor fetch against the matching collection -/

theorem scanPred_none (dir : Dir) (filters : Option EventFilters) (e : Event) :
    scanPred none dir filters e = matchingPred filters e := by
  unfold scanPred matchingPred applyCursorFilters
  rw [Bool.true_and]

theorem corrected_none_eq {coll : List Event} {dir : Dir}
    {filters : Option EventFilters} {p : Nat} :
    correctedEvents coll none dir filters p =
      (sortBy cursorLe (coll.filter (matchingPred filters))).take (p + 1) := by
  unfold correctedEvents fetchedEvents scanEvents fetchLimit
  rw [List.filter_congr (fun e _ => scanPred_none dir filters e)]
  apply List.filter_eq_self.mpr
  intro e he
  have hm : e ∈ coll.filter (matchingPred filters) :=
    ((sortBy_perm cursorLe _).mem_iff).mp (List.mem_of_mem_take he)
  have hmc := (List.mem_filter.mp hm).2
  unfold matchingPred nonArchived at hmc
  rw [Bool.and_eq_true, decide_eq_true_eq] at hmc
  simp [hmc.1]

theorem corrected_none_length {coll : List Event} {dir : Dir}
    {filters : Option EventFilters} {p : Nat} :
    (correctedEvents coll none dir filters p).length =
      min (p + 1) (coll.filter (matchingPred filters)).length := by
  rw [corrected_none_eq, List.length_take, (sortBy_perm cursorLe _).length_eq]

/-- On a request whose token decodes (or carries no/an empty token), the
result is the core pipeline at the effective cursor. -/
theorem gap_success_eq_core {coll : List Event} {sr : Bool} {cur : Option String}
    {p : Nat} {d : Dir} {filters : Option EventFilters}
    (hsucc : ∀ tok, cur = some tok → tok ≠ "" → CursorInfo.decode tok ≠ none) :
    get_all_events_paginated coll sr ⟨cur, p, d⟩ filters =
      paginateCore coll sr (effCursor cur) ⟨cur, p, d⟩ filters := by
  cases cur with
  | none => rfl
  | some tok =>
    by_cases h0 : tok = ""
    · subst h0
      unfold get_all_events_paginated effCursor
      dsimp only
      rw [if_pos rfl, if_pos rfl]
    · cases hdec : CursorInfo.decode tok with
      | none => exact absurd hdec (hsucc tok rfl h0)
      | some ci =>
        unfold get_all_events_paginated effCursor
        dsimp only
        rw [if_neg h0, if_neg h0, hdec]

/-! ## The claims -/

/-- C1 (counterexample): a malformed, non-empty cursor token does not behave
as if no cursor had been supplied — the decode failure hits the blanket
`except`, which returns the empty tuple instead of the first page. -/
theorem C1_counterexample :
    CursorInfo.decode "####" = none ∧
    get_all_events_paginated [evB] false ⟨some "####", 2, .next⟩ none ≠
      get_all_events_paginated [evB] false ⟨none, 2, .next⟩ none ∧
    get_all_events_paginated [evB] false ⟨some "####", 2, .next⟩ none = emptyPage := by
  decide

/-- C1 (amended): for every page request whose cursor token is non-empty and
malformed (`CursorInfo.decode` returns `None`), `get_all_events_paginated`
returns the empty tuple `([], None, None, False, False)` — the decode failure
is swallowed, but the caller gets an empty page, not the first page. -/
theorem C1_empty_page_on_malformed_cursor (coll : List Event) (sr : Bool)
    (p : Nat) (d : Dir) (filters : Option EventFilters) (tok : String)
    (hne : tok ≠ "") (hdec : CursorInfo.decode tok = none) :
    get_all_events_paginated coll sr ⟨some tok, p, d⟩ filters = emptyPage :=
  gap_cursor_bad hne hdec

/-- C1 witness: the amended theorem at a concrete malformed token. -/
theorem C1_witness :
    ("!!" ≠ "" ∧ CursorInfo.decode "!!" = none) ∧
    get_all_events_paginated coll3 false ⟨some "!!", 3, .prev⟩ none = emptyPage :=
  ⟨⟨by decide, by decide⟩,
    C1_empty_page_on_malformed_cursor coll3 false 3 .prev none "!!"
      (by decide) (by decide)⟩

/-- C2 (counterexample): a scan failure is not propagated as an error — the
request returns exactly `([], None, None, False, False)`, indistinguishable
from the legitimate empty page an empty collection produces. -/
theorem C2_counterexample :
    get_all_events_paginated [evB] true ⟨none, 2, .next⟩ none =
      (⟨[], none, none, false, false⟩ : PageResult) ∧
    get_all_events_paginated [] false ⟨none, 2, .next⟩ none =
      (⟨[], none, none, false, false⟩ : PageResult) := by
  decide

/-- C2 (amended): for every page request whose scan raises, the blanket
`except Exception` makes `get_all_events_paginated` return the normal-shaped
empty page `([], None, None, False, False)`; no error reaches the caller. -/
theorem C2_scan_failure_empty_page (coll : List Event)
    (params : CursorPaginationParams) (filters : Option EventFilters) :
    get_all_events_paginated coll true params filters = emptyPage := by
  obtain ⟨cur, p, d⟩ := params
  cases cur with
  | none => rfl
  | some tok =>
    unfold get_all_events_paginated
    dsimp only
    by_cases h0 : tok = ""
    · rw [if_pos h0]
      rfl
    · rw [if_neg h0]
      cases CursorInfo.decode tok <;> rfl

/-- C3 (counterexample): repeated `direction=next` requests do not exhaust
the filtered collection when sort keys repeat — with page size 1 over four
documents sharing one sort key, the traversal stops after three items
because the capped over-fetch (`min(page_size*3, 100) = 3`) leaves at most
one confirmed candidate after boundary correction, so `has_next` turns
false early and `evD` is never emitted. -/
theorem C3_counterexample :
    nextChain coll4 none 1 10 none = [evA1, evB, evC] ∧
    sortedMatching coll4 none = [evA1, evB, evC, evD] := by
  decide

/-- C3 (amended): for every static collection with collection-wide unique
`eventId`s, every filter set, every page size and every request budget, the
concatenation of all forward pages is strictly increasing in the display
order (hence duplicate-free) and contains only documents of the filtered
collection — no duplication and no spurious items, but gaps are possible. -/
theorem C3_forward_traversal_sound (coll : List Event)
    (filters : Option EventFilters) (p fuel : Nat)
    (hids : coll.Pairwise (fun a b => a.eventId ≠ b.eventId)) :
    (nextChain coll filters p fuel none).Pairwise evLt ∧
    (nextChain coll filters p fuel none).Nodup ∧
    ∀ e ∈ nextChain coll filters p fuel none,
      e ∈ coll.filter (matchingPred filters) := by
  obtain ⟨h1, h2⟩ := @nextChain_none_sound coll filters p hids fuel
  exact ⟨h1, pairwise_evLt_nodup h1, h2⟩

/-- C3 witness: the amended theorem on the concrete four-document collection. -/
theorem C3_witness :
    List.Pairwise (fun a b => a.eventId ≠ b.eventId) coll4 ∧
    ((nextChain coll4 none 1 5 none).Pairwise evLt ∧
     (nextChain coll4 none 1 5 none).Nodup ∧
     ∀ e ∈ nextChain coll4 none 1 5 none, e ∈ coll4.filter (matchingPred none)) :=
  ⟨by decide, C3_forward_traversal_sound coll4 none 1 5 (by decide)⟩

/-- C4: the spec's concrete scenario.  On the three-document collection with
keys `(null,"a")`, `("2025-01-01","b")`, `("2025-01-01","c")`, page size 2,
direction `next`: the first page is `[a, b]` with `has_next`, no
`has_previous`, and a next cursor encoding `("2025-01-01","b")`; the request
resumed from that cursor returns `[c]` with `has_next = false` and
`has_previous = true`. -/
theorem C4_concrete_scenario :
    get_all_events_paginated coll3 false ⟨none, 2, .next⟩ none =
      ⟨[evA, evB], some tokB, none, true, false⟩ ∧
    (get_all_events_paginated coll3 false ⟨some tokB, 2, .next⟩ none).items =
      [evC] ∧
    (get_all_events_paginated coll3 false ⟨some tokB, 2, .next⟩ none).has_next =
      false ∧
    (get_all_events_paginated coll3 false ⟨some tokB, 2, .next⟩ none).has_previous =
      true := by
  decide

/-- C5: flag derivation.  On every request that is not aborted (its token,
if any and non-empty, decodes): for `next`, `has_next` is exactly "more
corrected candidates than the page size remained" and `has_previous` is
exactly "a cursor was supplied"; for `prev`, mirrored.  In particular a
first page over exactly `page_size` matching documents has both flags
false, and over `page_size + 1` matching documents has `has_next`. -/
theorem C5_flag_derivation (coll : List Event) (cur : Option String) (p : Nat)
    (filters : Option EventFilters)
    (hsucc : ∀ tok, cur = some tok → tok ≠ "" → CursorInfo.decode tok ≠ none) :
    ((get_all_events_paginated coll false ⟨cur, p, .next⟩ filters).has_next =
        decide ((correctedEvents coll (effCursor cur) .next filters p).length > p) ∧
     (get_all_events_paginated coll false ⟨cur, p, .next⟩ filters).has_previous =
        cur.isSome) ∧
    ((get_all_events_paginated coll false ⟨cur, p, .prev⟩ filters).has_next =
        cur.isSome ∧
     (get_all_events_paginated coll false ⟨cur, p, .prev⟩ filters).has_previous =
        decide ((correctedEvents coll (effCursor cur) .prev filters p).length > p)) ∧
    (cur = none →
      ((coll.filter (matchingPred filters)).length = p →
        (get_all_events_paginated coll false ⟨cur, p, .next⟩ filters).has_next =
          false ∧
        (get_all_events_paginated coll false ⟨cur, p, .next⟩ filters).has_previous =
          false) ∧
      ((coll.filter (matchingPred filters)).length = p + 1 →
        (get_all_events_paginated coll false ⟨cur, p, .next⟩ filters).has_next =
          true)) := by
  have hN := @gap_success_eq_core coll false cur p Dir.next filters hsucc
  have hP := @gap_success_eq_core coll false cur p Dir.prev filters hsucc
  refine ⟨⟨?_, ?_⟩, ⟨?_, ?_⟩, ?_⟩
  · rw [hN, core_next_has_next]
  · rw [hN, core_next_has_previous]
  · rw [hP, core_prev_has_next]
  · rw [hP, core_prev_has_previous]
  · rintro rfl
    constructor
    · intro hcount
      constructor
      · rw [hN, core_next_has_next]
        apply decide_eq_false
        show ¬ (correctedEvents coll none .next filters p).length > p
        rw [corrected_none_length, hcount]
        omega
      · rw [hN, core_next_has_previous]
        rfl
    · intro hcount
      rw [hN, core_next_has_next]
      apply decide_eq_true
      show (correctedEvents coll none .next filters p).length > p
      rw [corrected_none_length, hcount]
      omega

/-- C5 witness: the flag derivation at a concrete first-page request. -/
theorem C5_witness :
    ((get_all_events_paginated coll3 false ⟨none, 2, .next⟩ none).has_next =
        decide ((correctedEvents coll3 (effCursor none) .next none 2).length > 2) ∧
     (get_all_events_paginated coll3 false ⟨none, 2, .next⟩ none).has_previous =
        (none : Option String).isSome) ∧
    ((get_all_events_paginated coll3 false ⟨none, 2, .prev⟩ none).has_next =
        (none : Option String).isSome ∧
     (get_all_events_paginated coll3 false ⟨none, 2, .prev⟩ none).has_previous =
        decide ((correctedEvents coll3 (effCursor none) .prev none 2).length > 2)) ∧
    ((none : Option String) = none →
      ((coll3.filter (matchingPred none)).length = 2 →
        (get_all_events_paginated coll3 false ⟨none, 2, .next⟩ none).has_next =
          false ∧
        (get_all_events_paginated coll3 false ⟨none, 2, .next⟩ none).has_previous =
          false) ∧
      ((coll3.filter (matchingPred none)).length = 2 + 1 →
        (get_all_events_paginated coll3 false ⟨none, 2, .next⟩ none).has_next =
          true)) :=
  C5_flag_derivation coll3 none 2 none (fun _ h => Option.noConfusion h)

/-- C6: the ordering comparator over `(sortKey, tieBreakId)` pairs is a
strict total order on pairs with distinct tie-break ids: exactly one of
`compare(a,b) = less`, `compare(a,b) = greater` holds, and
`compare(a,b) = less` iff `compare(b,a) = greater`. -/
theorem C6_comparator_strict_total_order (a b : Option String × String)
    (h : a.2 ≠ b.2) :
    Xor' (cursorCompare a b = -1) (cursorCompare a b = 1) ∧
    (cursorCompare a b = -1 ↔ cursorCompare b a = 1) := by
  constructor
  · rcases keyLt_total_of_ne h with hlt | hlt
    · exact Or.inl ⟨cursorCompare_neg_iff.mpr hlt,
        fun hpos => keyLt_asymm hlt (cursorCompare_pos_iff.mp hpos)⟩
    · exact Or.inr ⟨cursorCompare_pos_iff.mpr hlt,
        fun hneg => keyLt_asymm hlt (cursorCompare_neg_iff.mp hneg)⟩
  · exact cursorCompare_neg_iff.trans cursorCompare_pos_iff.symm

/-- C6 witness: the comparator law at a concrete pair (absent sort key
against a present one). -/
theorem C6_witness :
    ((none, "a") : Option String × String).2 ≠
      ((some "2025-01-01", "b") : Option String × String).2 ∧
    (Xor' (cursorCompare (none, "a") (some "2025-01-01", "b") = -1)
          (cursorCompare (none, "a") (some "2025-01-01", "b") = 1) ∧
     (cursorCompare (none, "a") (some "2025-01-01", "b") = -1 ↔
      cursorCompare (some "2025-01-01", "b") (none, "a") = 1)) :=
  ⟨by decide,
    C6_comparator_strict_total_order (none, "a") (some "2025-01-01", "b")
      (by decide)⟩

/-- C7: `_filter_events_by_cursor` is idempotent — applying it to its own
output, with the same cursor and direction, returns that output unchanged. -/
theorem C7_boundary_filter_idempotent (events : List Event) (c : CursorInfo)
    (d : Dir) :
    filter_events_by_cursor (filter_events_by_cursor events c d) c d =
      filter_events_by_cursor events c d := by
  unfold filter_events_by_cursor
  cases d <;> simp [List.filter_filter]

/-- C8: cursor round-trip — for every cursor (optional start time and event
id), decoding the encoded token succeeds and returns the same cursor. -/
theorem C8_cursor_round_trip (c : CursorInfo) :
    CursorInfo.decode (CursorInfo.encode c) = some c :=
  decode_encode c

/-- C9: malformed-token safety of the codec — every failure inside the
decode pipeline is an exception value the `except` turns into `None`
(`CursorInfo.decode` itself is total), and the canonical malformed inputs
(garbage, valid base64 of non-JSON text, JSON without the expected keys,
non-object JSON) all decode to `None`. -/
theorem C9_malformed_token_safety :
    (∀ s e, decodeRaw s = Except.error e → CursorInfo.decode s = none) ∧
    CursorInfo.decode "####" = none ∧
    CursorInfo.decode "aGVsbG8=" = none ∧
    CursorInfo.decode "e30=" = none ∧
    CursorInfo.decode "bnVsbA==" = none := by
  refine ⟨?_, by decide, by decide, by decide, by decide⟩
  intro s e h
  unfold CursorInfo.decode
  rw [h]
  rfl

/-- C9 witness: the error-to-`None` implication at a concrete failing
input. -/
theorem C9_witness :
    decodeRaw "####" = Except.error PyErr.jsonDecode ∧
    CursorInfo.decode "####" = none :=
  ⟨rfl, C9_malformed_token_safety.1 "####" PyErr.jsonDecode rfl⟩

/-- C10: on a collection whose non-null sort keys are all lexicographically
at or above `"1900-01-01T00:00:00Z"`, every `direction=prev` request whose
decoded cursor has a null sort key returns no items, `has_previous = false`
and `has_next = true` — the store-level impossible condition
`startTime < "1900-01-01T00:00:00Z"` matches nothing (null fields never
match a range filter), so documents strictly before the cursor are never
returned from such a cursor. -/
theorem C10_prev_from_null_cursor (coll : List Event) (p : Nat)
    (filters : Option EventFilters) (tok : String) (ci : CursorInfo)
    (hiso : ∀ e ∈ coll, ∀ s, e.startTime = some s →
      strLt s "1900-01-01T00:00:00Z" = false)
    (hdec : CursorInfo.decode tok = some ci) (hnull : ci.start_time = none) :
    get_all_events_paginated coll false ⟨some tok, p, .prev⟩ filters =
      ⟨[], none, none, true, false⟩ := by
  have hne : tok ≠ "" := by
    intro h
    rw [h] at hdec
    have h0 : CursorInfo.decode "" = none := by decide
    rw [h0] at hdec
    exact Option.noConfusion hdec
  rw [gap_cursor_decoded hne hdec]
  have hacf : ∀ e, applyCursorFilters (some ci) .prev e =
      whereLtStartTime "1900-01-01T00:00:00Z" e := by
    intro e
    unfold applyCursorFilters
    dsimp only
    rw [hnull]
  have hscan : coll.filter (scanPred (some ci) .prev filters) = [] := by
    rw [List.filter_eq_nil_iff]
    intro e he
    unfold scanPred
    rw [hacf]
    cases hst : e.startTime with
    | none => simp [whereLtStartTime, hst]
    | some s => simp [whereLtStartTime, hst, hiso e he s hst]
  have hcorr : correctedEvents coll (some ci) .prev filters p = [] := by
    unfold correctedEvents fetchedEvents scanEvents
    dsimp only
    rw [hscan, show sortBy cursorLe ([] : List Event) = [] from rfl, List.take_nil]
    rfl
  have hitems : (paginateCore coll false (some ci)
      ⟨some tok, p, .prev⟩ filters).items = [] := by
    rw [core_prev_items, hcorr]
    simp
  have hhn : (paginateCore coll false (some ci)
      ⟨some tok, p, .prev⟩ filters).has_next = true := by
    rw [core_prev_has_next]
    rfl
  have hhp : (paginateCore coll false (some ci)
      ⟨some tok, p, .prev⟩ filters).has_previous = false := by
    rw [core_prev_has_previous, hcorr]
    simp
  obtain ⟨hnc, hpc⟩ := core_prev_cursors_empty hitems
  have hsplit : paginateCore coll false (some ci) ⟨some tok, p, .prev⟩ filters =
      ⟨(paginateCore coll false (some ci) ⟨some tok, p, .prev⟩ filters).items,
       (paginateCore coll false (some ci) ⟨some tok, p, .prev⟩ filters).next_cursor,
       (paginateCore coll false (some ci) ⟨some tok, p, .prev⟩ filters).prev_cursor,
       (paginateCore coll false (some ci) ⟨some tok, p, .prev⟩ filters).has_next,
       (paginateCore coll false (some ci) ⟨some tok, p, .prev⟩ filters).has_previous⟩ :=
    rfl
  rw [hsplit, hitems, hnc, hpc, hhn, hhp]

/-- C10 witness: a backward request from a null-sort-key cursor over a
collection holding a document that is strictly before that cursor. -/
theorem C10_witness :
    CursorInfo.decode tokNullZ = some ⟨none, "z"⟩ ∧
    get_all_events_paginated [evA] false ⟨some tokNullZ, 1, .prev⟩ none =
      ⟨[], none, none, true, false⟩ :=
  ⟨decode_encode ⟨none, "z"⟩,
    C10_prev_from_null_cursor [evA] 1 none tokNullZ ⟨none, "z"⟩
      (by
        intro e he s hs
        rw [List.mem_singleton] at he
        subst he
        exact Option.noConfusion hs)
      (decode_encode ⟨none, "z"⟩) rfl⟩

end Sahana
